import Mathlib

/-!
# Gravity game server (`src/server.js`): shallow embedding

The JavaScript server keeps two maps (`rooms`, `roomTimers`) and reacts to socket
events.  Here every handler is a pure function from the server state to the new
state together with the list of events it emits.

* a board is a list of rows, a cell is `none` (JavaScript `null`) or `some role`;
* reading `board[r][c]` outside the arrays gives `none : Option Cell`
  (JavaScript `undefined`), which is neither `null` nor a role;
* the `while` loops of `checkWin` are run with the board extent (10) as fuel;
  `walk_fuel_stable` shows that more fuel never changes the result;
* `Math.random` is not modelled: the identifier produced by `generateRoomId`
  is a parameter of the `createRoom` event;
* a `Map` is an association list kept in insertion order (`mapSet` overwrites in place or
  appends), and `roomTimers` is the list of identifiers with an armed timer; the timer
  callback is the event `timerExpired`, which can only happen while its timer is armed;
* the `col` field of a `makeMove` payload is an integer; an index outside the row arrays
  reads `undefined`, so such a column has no free cell.
-/

namespace GravityGame

/-! ## Data model -/

/-- The two markers, `'X'` and `'O'`. -/
inductive Role where
  | X
  | O
  deriving DecidableEq, Repr

/-- A board cell: `none` is JavaScript `null` (empty). -/
abbrev Cell := Option Role

/-- The board: `Array(10).fill(null).map(() => Array(10).fill(null))` and its updates. -/
abbrev Board := List (List Cell)

abbrev SocketId := String

abbrev RoomId := String

/-- A coordinate pair `[r, c]` as pushed on `cells` in `checkWin`. -/
abbrev Coord := Int × Int

/-- The room object built in the `createRoom` handler. -/
structure Room where
  id : RoomId
  players : List SocketId
  board : Board
  currentPlayer : Role
  playerRoles : List (SocketId × Role)
  gameOver : Bool
  deriving DecidableEq, Repr

/-- Payloads of the emitted socket events. -/
inductive Payload where
  | roomCreated (roomId : RoomId) (role : Role)
  | error (message : String)
  | roomJoined (roomId : RoomId) (role : Role)
  | gameStart (board : Board) (currentPlayer : Role) (players : Nat)
  | moveMade (row : Nat) (col : Int) (player : Option Role) (currentPlayer : Role) (board : Board)
  | gameOver (winner : Option Role) (winningCells : Option (List Coord)) (board : Board)
  | gameReset (board : Board) (currentPlayer : Role)
  | playerDisconnected (message : String)
  deriving DecidableEq, Repr

/-- An emission: `socket.emit(..)` reaches one socket, `io.to(roomId).emit(..)` the room. -/
inductive Emit where
  | toSocket (sid : SocketId) (payload : Payload)
  | toRoom (roomId : RoomId) (payload : Payload)
  deriving DecidableEq, Repr

/-- The two module-level maps: `rooms` and `roomTimers` (the armed deletion timers). -/
structure Server where
  rooms : List (RoomId × Room)
  roomTimers : List RoomId
  deriving DecidableEq, Repr

/-! ## JavaScript maps and arrays -/

/-- The call `Map.prototype.get` / property read: the value stored under a key. -/
def mapGet {ν : Type} (m : List (String × ν)) (k : String) : Option ν :=
  match m with
  | [] => none
  | (k', v) :: rest => if k' = k then some v else mapGet rest k

/-- The call `Map.prototype.set` / property write: overwrite in place, or append a new entry. -/
def mapSet {ν : Type} (m : List (String × ν)) (k : String) (v : ν) : List (String × ν) :=
  match m with
  | [] => [(k, v)]
  | (k', v') :: rest => if k' = k then (k, v) :: rest else (k', v') :: mapSet rest k v

/-- The call `Map.prototype.delete`. -/
def mapDelete {ν : Type} (m : List (String × ν)) (k : String) : List (String × ν) :=
  match m with
  | [] => []
  | (k', v) :: rest => if k' = k then mapDelete rest k else (k', v) :: mapDelete rest k

/-- Array read `xs[i]` for an integer index: `none` is `undefined`. -/
def jsIndex {α : Type} (xs : List α) (i : Int) : Option α :=
  if 0 ≤ i then xs.get? i.toNat else none

/-- The read `board[r][c]`; `none` is `undefined`, `some none` is `null`. -/
def cellAt (board : Board) (r c : Int) : Option Cell :=
  (jsIndex board r).bind (fun row => jsIndex row c)

/-- The write `board[row][col] = v` (only executed for a cell that was read as `null`,
hence inside the arrays). -/
def setCell (board : Board) (row : Nat) (col : Int) (v : Cell) : Board :=
  board.set row ((board.getD row []).set col.toNat v)

/-- The expression `Array(10).fill(null).map(() => Array(10).fill(null))`. -/
def emptyBoard : Board := List.replicate 10 (List.replicate 10 none)

/-- A board has 10 rows of 10 cells. -/
def Board.WF (board : Board) : Prop :=
  board.length = 10 ∧ ∀ row ∈ board, row.length = 10

instance (board : Board) : Decidable board.WF := by
  unfold Board.WF; infer_instance

/-! ## `checkWin` and `isBoardFull` -/

/-- The `directions` table of `checkWin`: pairs `[dir1, dir2]`. -/
def directions : List (Coord × Coord) :=
  [((0, 1), (0, -1)), ((1, 0), (-1, 0)), ((1, 1), (-1, -1)), ((1, -1), (-1, 1))]

/-- The loop condition `r >= 0 && r < 10 && c >= 0 && c < 10 && board[r][c] === player`. -/
def walkCond (board : Board) (player : Role) (r c : Int) : Prop :=
  0 ≤ r ∧ r < 10 ∧ 0 ≤ c ∧ c < 10 ∧ cellAt board r c = some (some player)

instance (board : Board) (player : Role) (r c : Int) : Decidable (walkCond board player r c) := by
  unfold walkCond; infer_instance

/-- One `while` loop of `checkWin`, started at `(r, c)`, stepping by `(dr, dc)`:
the cells it pushes, in order. -/
def walk (board : Board) (player : Role) (dr dc : Int) : Nat → Int → Int → List Coord
  | 0, _, _ => []
  | fuel + 1, r, c =>
    if walkCond board player r c then
      (r, c) :: walk board player dr dc fuel (r + dr) (c + dc)
    else []

/-- The list `cells` at the end of one iteration of the outer loop of `checkWin`. -/
def axisCells (board : Board) (row col : Int) (player : Role) (d : Coord × Coord) : List Coord :=
  [(row, col)]
    ++ walk board player d.1.1 d.1.2 10 (row + d.1.1) (col + d.1.2)
    ++ walk board player d.2.1 d.2.2 10 (row + d.2.1) (col + d.2.2)

/-- The outer loop of `checkWin` over the remaining direction pairs. -/
def checkWinLoop (board : Board) (row col : Int) (player : Role) :
    List (Coord × Coord) → Option (List Coord)
  | [] => none
  | d :: ds =>
    if 4 ≤ (axisCells board row col player d).length then
      some (axisCells board row col player d)
    else checkWinLoop board row col player ds

/-- The function `checkWin(board, row, col, player)`; `none` is `null`. -/
def checkWin (board : Board) (row col : Int) (player : Role) : Option (List Coord) :=
  checkWinLoop board row col player directions

/-- The function `isBoardFull(board)`. -/
def isBoardFull (board : Board) : Bool :=
  board.all (fun row => row.all (fun cell => cell != none))

/-! ## Handlers -/

def errRoomNotFound : String := "Комната не найдена"

def errRoomFull : String := "Комната заполнена"

def errNotYourTurn : String := "Не ваш ход!"

def msgDisconnected : String :=
  "Соперник отключился. Комната будет удалена через 5 минут, если он не вернется."

/-- The function `setRoomDeletionTimer`: any old timer is cleared, a new one is stored. -/
def setRoomDeletionTimer (timers : List RoomId) (roomId : RoomId) : List RoomId :=
  if roomId ∈ timers then timers else timers ++ [roomId]

/-- The function `cancelRoomDeletionTimer`. -/
def cancelRoomDeletionTimer (timers : List RoomId) (roomId : RoomId) : List RoomId :=
  timers.filter (fun t => decide (t ≠ roomId))

/-- The `createRoom` handler; `roomId` is the value returned by `generateRoomId()`. -/
def createRoom (st : Server) (sid : SocketId) (roomId : RoomId) : Server × List Emit :=
  let room : Room :=
    { id := roomId, players := [sid], board := emptyBoard, currentPlayer := Role.X,
      playerRoles := [(sid, Role.X)], gameOver := false }
  ({ st with rooms := mapSet st.rooms roomId room },
    [Emit.toSocket sid (Payload.roomCreated roomId Role.X)])

/-- The `joinRoom` handler. -/
def joinRoom (st : Server) (sid : SocketId) (roomId : RoomId) : Server × List Emit :=
  match mapGet st.rooms roomId with
  | none => (st, [Emit.toSocket sid (Payload.error errRoomNotFound)])
  | some room =>
    if 2 ≤ room.players.length then
      (st, [Emit.toSocket sid (Payload.error errRoomFull)])
    else
      let room1 : Room :=
        { room with players := room.players ++ [sid],
                    playerRoles := mapSet room.playerRoles sid Role.O }
      ({ rooms := mapSet st.rooms roomId room1,
         roomTimers := cancelRoomDeletionTimer st.roomTimers roomId },
        [Emit.toSocket sid (Payload.roomJoined roomId Role.O),
         Emit.toRoom roomId (Payload.gameStart room1.board room1.currentPlayer room1.players.length)])

/-- The row search of the `makeMove` handler: `for (let r = 9; r >= 0; r--)` with `n`
rows still to visit (the next one is `n - 1`); `none` stands for `row === -1`. -/
def findRowFrom (board : Board) (col : Int) : Nat → Option Nat
  | 0 => none
  | n + 1 => if cellAt board n col = some none then some n else findRowFrom board col n

/-- The lowest free cell of a column, searched from row 9 upwards. -/
def findRow (board : Board) (col : Int) : Option Nat := findRowFrom board col 10

/-- The expression `room.currentPlayer === 'X' ? 'O' : 'X'`. -/
def otherRole (r : Role) : Role :=
  if r = Role.X then Role.O else Role.X

/-- The `makeMove` handler once `rooms.get(roomId)` has returned `room`:
the updated room object and the emitted events. -/
def makeMoveRoom (room : Room) (sid : SocketId) (roomId : RoomId) (col : Int) :
    Room × List Emit :=
  if room.gameOver then (room, [])
  else if mapGet room.playerRoles sid ≠ some room.currentPlayer then
    (room, [Emit.toSocket sid (Payload.error errNotYourTurn)])
  else
    match findRow room.board col with
    | none => (room, [])
    | some row =>
      let board := setCell room.board row col (some room.currentPlayer)
      match checkWin board row col room.currentPlayer with
      | some winningCells =>
        ({ room with board := board, gameOver := true },
          [Emit.toRoom roomId
            (Payload.gameOver (some room.currentPlayer) (some winningCells) board)])
      | none =>
        if isBoardFull board then
          ({ room with board := board, gameOver := true },
            [Emit.toRoom roomId (Payload.gameOver none none board)])
        else
          ({ room with board := board, currentPlayer := otherRole room.currentPlayer },
            [Emit.toRoom roomId
              (Payload.moveMade row col (mapGet room.playerRoles sid)
                (otherRole room.currentPlayer) board)])

/-- The `makeMove` handler. -/
def makeMove (st : Server) (sid : SocketId) (roomId : RoomId) (col : Int) :
    Server × List Emit :=
  match mapGet st.rooms roomId with
  | none => (st, [Emit.toSocket sid (Payload.error errRoomNotFound)])
  | some room =>
    let res := makeMoveRoom room sid roomId col
    ({ st with rooms := mapSet st.rooms roomId res.1 }, res.2)

/-- The `resetGame` handler once the room has been found. -/
def resetRoom (room : Room) : Room :=
  { room with board := emptyBoard, currentPlayer := Role.X, gameOver := false }

/-- The `resetGame` handler. -/
def resetGame (st : Server) (roomId : RoomId) : Server × List Emit :=
  match mapGet st.rooms roomId with
  | none => (st, [])
  | some room =>
    ({ st with rooms := mapSet st.rooms roomId (resetRoom room) },
      [Emit.toRoom roomId (Payload.gameReset emptyBoard Role.X)])

/-- The loop of the `disconnect` handler over `rooms.entries()`, which yields every key
with the value stored under it; `todo` are the keys not visited yet, `st` is the whole state. -/
def disconnectLoop (st : Server) (sid : SocketId) : List RoomId → Server × List Emit
  | [] => (st, [])
  | roomId :: rest =>
    match mapGet st.rooms roomId with
    | none => disconnectLoop st sid rest
    | some room =>
      if sid ∈ room.players then
        let players := room.players.filter (fun id => decide (id ≠ sid))
        let room1 : Room := { room with players := players }
        if players.length = 1 then
          ({ rooms := mapSet st.rooms roomId room1,
             roomTimers := setRoomDeletionTimer st.roomTimers roomId },
            [Emit.toRoom roomId (Payload.playerDisconnected msgDisconnected)])
        else if players.length = 0 then
          ({ rooms := mapDelete st.rooms roomId,
             roomTimers := cancelRoomDeletionTimer st.roomTimers roomId }, [])
        else
          ({ st with rooms := mapSet st.rooms roomId room1 }, [])
      else disconnectLoop st sid rest

/-- The `disconnect` handler. -/
def disconnect (st : Server) (sid : SocketId) : Server × List Emit :=
  disconnectLoop st sid (st.rooms.map Prod.fst)

/-- The callback armed by `setRoomDeletionTimer`; it can only run while its timer is armed. -/
def timerExpired (st : Server) (roomId : RoomId) : Server × List Emit :=
  if roomId ∈ st.roomTimers then
    ({ rooms := mapDelete st.rooms roomId,
       roomTimers := cancelRoomDeletionTimer st.roomTimers roomId }, [])
  else (st, [])

/-- The events the server reacts to. -/
inductive Event where
  | createRoom (sid : SocketId) (generated : RoomId)
  | joinRoom (sid : SocketId) (roomId : RoomId)
  | makeMove (sid : SocketId) (roomId : RoomId) (col : Int)
  | resetGame (sid : SocketId) (roomId : RoomId)
  | disconnect (sid : SocketId)
  | timerExpired (roomId : RoomId)
  deriving DecidableEq, Repr

/-- One event handled by the server. -/
def step (st : Server) : Event → Server × List Emit
  | Event.createRoom sid generated => createRoom st sid generated
  | Event.joinRoom sid roomId => joinRoom st sid roomId
  | Event.makeMove sid roomId col => makeMove st sid roomId col
  | Event.resetGame _ roomId => resetGame st roomId
  | Event.disconnect sid => disconnect st sid
  | Event.timerExpired roomId => timerExpired st roomId

/-- The state after a list of events, handled one after the other. -/
def run (st : Server) : List Event → Server
  | [] => st
  | e :: es => run (step st e).1 es

/-- The server right after start-up: no room, no timer. -/
def initial : Server := { rooms := [], roomTimers := [] }

/-! ## Specification-side notions -/

/-- A cell of the 10x10 grid that holds `player`. -/
def holds (board : Board) (player : Role) (r c : Int) : Prop :=
  (0 ≤ r ∧ r < 10) ∧ (0 ≤ c ∧ c < 10) ∧ cellAt board r c = some (some player)

instance (board : Board) (player : Role) (r c : Int) : Decidable (holds board player r c) := by
  unfold holds; infer_instance

/-- The four axes, each named by its first direction. -/
def axes : List Coord := [(0, 1), (1, 0), (1, 1), (1, -1)]

/-- Four cells contiguous along one axis, all holding `player`, one of them `(row, col)`:
the window starts `j` steps before `(row, col)`. -/
def fourInLine (board : Board) (player : Role) (row col : Int) : Prop :=
  ∃ d ∈ axes, ∃ j ∈ List.range 4, ∀ i ∈ List.range 4,
    holds board player (row + ((i : Int) - (j : Int)) * d.1) (col + ((i : Int) - (j : Int)) * d.2)

instance (board : Board) (player : Role) (row col : Int) :
    Decidable (fourInLine board player row col) := by
  unfold fourInLine; infer_instance

/-- The list `l` is the maximal run of cells holding `player` met when walking away from
`(row, col)` by steps of `(dr, dc)`: the cells at distance `1, .., l.length` all hold
`player`, and the cell at distance `l.length + 1` does not (or lies off the grid). -/
def IsMaxRun (board : Board) (player : Role) (row col dr dc : Int) (l : List Coord) : Prop :=
  l = (List.range l.length).map
        (fun i : Nat => (row + ((i : Int) + 1) * dr, col + ((i : Int) + 1) * dc)) ∧
    (∀ p ∈ l, holds board player p.1 p.2) ∧
    ¬ holds board player (row + ((l.length : Int) + 1) * dr) (col + ((l.length : Int) + 1) * dc)

/-- An event that re-initialises the board registered under `roomId`: `resetGame` on it, or a
`createRoom` whose generated identifier is `roomId` (a brand-new room takes its place). -/
def Event.isResetOf (roomId : RoomId) : Event → Bool
  | Event.resetGame _ rid => decide (rid = roomId)
  | Event.createRoom _ rid => decide (rid = roomId)
  | _ => false

/-- The rows below 10 whose cell in column `col` is empty. -/
def emptyRows (board : Board) (col : Int) : List Nat :=
  (List.range 10).filter (fun r => decide (cellAt board r col = some none))

/-- The rows of column `col` that are empty in `b` and no longer empty in `b1`. -/
def newlyFilled (b b1 : Board) (col : Int) : List Nat :=
  (List.range 10).filter
    (fun r => decide (cellAt b r col = some none ∧ cellAt b1 r col ≠ some none))

/-- The rows of column `col` of the room `roomId` in which one event places a marker. -/
def placedBy (roomId : RoomId) (col : Int) (st : Server) (e : Event) : List Nat :=
  match mapGet st.rooms roomId, mapGet (step st e).1.rooms roomId with
  | some room, some room1 => newlyFilled room.board room1.board col
  | _, _ => []

/-- The rows of column `col` of the room `roomId` in which the events of a run place a
marker, in the order of the placements. -/
def placedRows (roomId : RoomId) (col : Int) : Server → List Event → List Nat
  | _, [] => []
  | st, e :: es => placedBy roomId col st e ++ placedRows roomId col (step st e).1 es

/-- A move that is accepted and ends the game neither by a win nor by a draw: the room exists,
its game is not over, the mover's role is the current turn, the column has a free cell, and
after the placement there is no win and the board is not full. -/
def AcceptedNonTerminal (st : Server) (sid : SocketId) (roomId : RoomId) (col : Int) : Prop :=
  ∃ room row, mapGet st.rooms roomId = some room ∧ room.gameOver = false ∧
    mapGet room.playerRoles sid = some room.currentPlayer ∧
    findRow room.board col = some row ∧
    checkWin (setCell room.board row col (some room.currentPlayer)) row col
      room.currentPlayer = none ∧
    isBoardFull (setCell room.board row col (some room.currentPlayer)) = false

/-- The state after a list of moves `(sid, col)` on the room `roomId`. -/
def runMoves (roomId : RoomId) : Server → List (SocketId × Int) → Server
  | st, [] => st
  | st, m :: rest => runMoves roomId (makeMove st m.1 roomId m.2).1 rest

/-- Every move of the list is accepted and non-terminal in the state it is made in. -/
def NonTerminalRun (roomId : RoomId) : Server → List (SocketId × Int) → Prop
  | _, [] => True
  | st, m :: rest =>
    AcceptedNonTerminal st m.1 roomId m.2 ∧ NonTerminalRun roomId (makeMove st m.1 roomId m.2).1 rest

/-- The current turn of the room `roomId`, if it is registered. -/
def roomTurn (st : Server) (roomId : RoomId) : Option Role :=
  (mapGet st.rooms roomId).map (fun room => room.currentPlayer)

/-- The list `[n - 1, .., 1, 0]`. -/
def descFrom : Nat → List Nat
  | 0 => []
  | n + 1 => n :: descFrom n

/-- The number of empty cells in rows 0..9 of column `col` of the room `roomId`
(0 when the room is not registered). -/
def freeCells (roomId : RoomId) (col : Int) (st : Server) : Nat :=
  match mapGet st.rooms roomId with
  | none => 0
  | some room => (emptyRows room.board col).length

/-- In column `col` of the room `roomId` (if registered), exactly the rows above `n` are
empty: the column is filled from the bottom up to row `n`. -/
def ColumnShape (roomId : RoomId) (col : Int) (n : Nat) (st : Server) : Prop :=
  ∀ room, mapGet st.rooms roomId = some room →
    ∀ r : Nat, r < 10 → (cellAt room.board r col = some none ↔ r < n)

/-- A game between `a` (X) and `b` (O) in room `R` after which X is to move, column 0 holds X
on rows 7, 8, 9 and row 6 holds X in columns 1, 2, 3. -/
def crossGame : List Event :=
  [Event.createRoom "a" "R", Event.joinRoom "b" "R",
   Event.makeMove "a" "R" 0, Event.makeMove "b" "R" 1,
   Event.makeMove "a" "R" 0, Event.makeMove "b" "R" 1,
   Event.makeMove "a" "R" 0, Event.makeMove "b" "R" 1,
   Event.makeMove "a" "R" 2, Event.makeMove "b" "R" 3,
   Event.makeMove "a" "R" 2, Event.makeMove "b" "R" 3,
   Event.makeMove "a" "R" 1, Event.makeMove "b" "R" 3,
   Event.makeMove "a" "R" 3, Event.makeMove "b" "R" 2,
   Event.makeMove "a" "R" 2, Event.makeMove "b" "R" 9]

/-- A game between `a` (X) and `b` (O) in room `R` that X wins with four markers in column 0. -/
def wonGame : List Event :=
  [Event.createRoom "a" "R", Event.joinRoom "b" "R",
   Event.makeMove "a" "R" 0, Event.makeMove "b" "R" 1,
   Event.makeMove "a" "R" 0, Event.makeMove "b" "R" 1,
   Event.makeMove "a" "R" 0, Event.makeMove "b" "R" 1,
   Event.makeMove "a" "R" 0]

/-- The start of a game between `a` (X) and `b` (O) in room `R`: three moves each. -/
def openingGame : List Event :=
  [Event.createRoom "a" "R", Event.joinRoom "b" "R",
   Event.makeMove "a" "R" 0, Event.makeMove "b" "R" 1,
   Event.makeMove "a" "R" 0, Event.makeMove "b" "R" 1,
   Event.makeMove "a" "R" 0, Event.makeMove "b" "R" 1]

/-- The room `rid` is registered and lists `sid` among its players
(`room.players.includes(socket.id)`). -/
def listsPlayer (st : Server) (sid : SocketId) (rid : RoomId) : Bool :=
  match mapGet st.rooms rid with
  | some room => decide (sid ∈ room.players)
  | none => false

/-- The room found by the `disconnect` handler: the first registered room, in the order of
the registry, that lists `sid`. -/
def roomOf (st : Server) (sid : SocketId) : Option RoomId :=
  (st.rooms.map Prod.fst).find? (listsPlayer st sid)

/-- Every registered room has one or two players, and a deletion timer is armed only for a
registered room with exactly one player. -/
def RoomsInv (st : Server) : Prop :=
  (∀ rid room, mapGet st.rooms rid = some room →
      1 ≤ room.players.length ∧ room.players.length ≤ 2) ∧
    (∀ rid, rid ∈ st.roomTimers →
      ∃ room, mapGet st.rooms rid = some room ∧ room.players.length = 1)

/-- The number of non-empty cells of a board. -/
def filledCells (board : Board) : Nat :=
  (board.map (fun row => row.countP (fun cell => cell != none))).sum

/-- A move that is accepted and does not complete a four-in-a-row: the room exists, its game
is not over, the mover's role is the current turn, the column has a free cell, and `checkWin`
at the placed cell returns `null`. -/
def AcceptedNonWinning (st : Server) (sid : SocketId) (roomId : RoomId) (col : Int) : Prop :=
  ∃ room row, mapGet st.rooms roomId = some room ∧ room.gameOver = false ∧
    mapGet room.playerRoles sid = some room.currentPlayer ∧
    findRow room.board col = some row ∧
    checkWin (setCell room.board row col (some room.currentPlayer)) row col
      room.currentPlayer = none

/-- Every move of the list is accepted and non-winning in the state it is made in. -/
def NonWinningRun (roomId : RoomId) : Server → List (SocketId × Int) → Prop
  | _, [] => True
  | st, m :: rest =>
    AcceptedNonWinning st m.1 roomId m.2 ∧ NonWinningRun roomId (makeMove st m.1 roomId m.2).1 rest

/-- A full-board scan: somewhere on the 10x10 grid four contiguous cells along one of the four
axes hold the same role (the window starts at `(r, c)` and follows the direction `d`). -/
def hasFour (board : Board) : Prop :=
  ∃ player ∈ [Role.X, Role.O], ∃ d ∈ axes, ∃ r ∈ List.range 10, ∃ c ∈ List.range 10,
    ∀ i ∈ List.range 4,
      holds board player ((r : Int) + (i : Int) * d.1) ((c : Int) + (i : Int) * d.2)

instance (board : Board) : Decidable (hasFour board) := by
  unfold hasFour; infer_instance

/-- Every registered board is a 10x10 grid, and a room whose game is not over has no four
contiguous cells of one role on any axis. -/
def ScanInv (st : Server) : Prop :=
  ∀ rid room, mapGet st.rooms rid = some room →
    room.board.WF ∧ (room.gameOver = false → ¬ hasFour room.board)

/-- The same socket `a` creates two rooms. -/
def twoRoomsGame : List Event :=
  [Event.createRoom "a" "R1", Event.createRoom "a" "R2"]

/-- The socket `a` creates `R1`, then joins the room `R2` created by `b`. -/
def sharedGame : List Event :=
  [Event.createRoom "a" "R1", Event.createRoom "b" "R2", Event.joinRoom "a" "R2"]

/-- The socket `a` creates `R`, `b` joins it and leaves again. -/
def leftAloneGame : List Event :=
  [Event.createRoom "a" "R", Event.joinRoom "b" "R", Event.disconnect "b"]

/-- The socket `a` creates `R`, `b` joins, `a` leaves and `c` joins. -/
def replacedGame : List Event :=
  [Event.createRoom "a" "R", Event.joinRoom "b" "R", Event.disconnect "a",
   Event.joinRoom "c" "R"]

/-- Every registered board is filled from the bottom: above an empty cell of rows 0..9 the
cells of the same column are empty. -/
def GravityInv (st : Server) : Prop :=
  ∀ rid room, mapGet st.rooms rid = some room →
    ∀ (r r1 : Nat) (c : Int), r1 < r → r < 10 → cellAt room.board r c = some none →
      cellAt room.board r1 c = some none

/-- A room without players, used where a lookup needs a default. -/
def blankRoom (roomId : RoomId) : Room :=
  { id := roomId, players := [], board := emptyBoard, currentPlayer := Role.X,
    playerRoles := [], gameOver := false }

/-- The room registered under `roomId` (a blank room when there is none). -/
def roomAt (st : Server) (roomId : RoomId) : Room :=
  (mapGet st.rooms roomId).getD (blankRoom roomId)

/-- A room `R` with `a` as X and `b` as O, no move made yet. -/
def startGame : List Event :=
  [Event.createRoom "a" "R", Event.joinRoom "b" "R"]

/-- Ten moves into column 0, `a` and `b` in turn. -/
def columnMoves : List Event :=
  [Event.makeMove "a" "R" 0, Event.makeMove "b" "R" 0,
   Event.makeMove "a" "R" 0, Event.makeMove "b" "R" 0,
   Event.makeMove "a" "R" 0, Event.makeMove "b" "R" 0,
   Event.makeMove "a" "R" 0, Event.makeMove "b" "R" 0,
   Event.makeMove "a" "R" 0, Event.makeMove "b" "R" 0]

/-! ## Lemmas on `checkWin` -/

theorem walkCond_iff_holds (board : Board) (player : Role) (r c : Int) :
    walkCond board player r c ↔ holds board player r c := by
  unfold walkCond holds; tauto

theorem walk_length_le (board : Board) (player : Role) (dr dc : Int) :
    ∀ (fuel : Nat) (r c : Int), (walk board player dr dc fuel r c).length ≤ fuel := by
  intro fuel
  induction fuel with
  | zero => intro r c; simp [walk]
  | succ f ih =>
    intro r c
    unfold walk
    split
    · have := ih (r + dr) (c + dc)
      simp only [List.length_cons]; omega
    · simp

theorem walk_eq_map (board : Board) (player : Role) (dr dc : Int) :
    ∀ (fuel : Nat) (r c : Int),
      walk board player dr dc fuel r c =
        (List.range (walk board player dr dc fuel r c).length).map
          (fun i : Nat => (r + (i : Int) * dr, c + (i : Int) * dc)) := by
  intro fuel
  induction fuel with
  | zero => intro r c; simp [walk]
  | succ f ih =>
    intro r c
    unfold walk
    split
    · have h := ih (r + dr) (c + dc)
      simp only [List.length_cons, List.range_succ_eq_map, List.map_cons, List.map_map]
      congr 1
      · simp
      · conv_lhs => rw [h]
        apply List.map_congr_left
        intro i _
        simp only [Function.comp, Nat.cast_succ, Prod.mk.injEq]
        constructor <;> ring
    · simp

theorem walk_all_cond (board : Board) (player : Role) (dr dc : Int) :
    ∀ (fuel : Nat) (r c : Int) (i : Nat), i < (walk board player dr dc fuel r c).length →
      walkCond board player (r + (i : Int) * dr) (c + (i : Int) * dc) := by
  intro fuel
  induction fuel with
  | zero => intro r c i hi; simp [walk] at hi
  | succ f ih =>
    intro r c i hi
    unfold walk at hi
    split at hi
    · rename_i hc
      cases i with
      | zero => simpa using hc
      | succ i =>
        have := ih (r + dr) (c + dc) i (by simpa using hi)
        have e1 : r + ((i + 1 : Nat) : Int) * dr = r + dr + (i : Int) * dr := by push_cast; ring
        have e2 : c + ((i + 1 : Nat) : Int) * dc = c + dc + (i : Int) * dc := by push_cast; ring
        rw [e1, e2]; exact this
    · simp at hi

theorem walk_stop (board : Board) (player : Role) (dr dc : Int) :
    ∀ (fuel : Nat) (r c : Int), (walk board player dr dc fuel r c).length < fuel →
      ¬ walkCond board player
        (r + ((walk board player dr dc fuel r c).length : Int) * dr)
        (c + ((walk board player dr dc fuel r c).length : Int) * dc) := by
  intro fuel
  induction fuel with
  | zero => intro r c h; simp at h
  | succ f ih =>
    intro r c h
    unfold walk at h ⊢
    split
    · rename_i hc
      rw [if_pos hc] at h
      have := ih (r + dr) (c + dc) (by simpa using h)
      simp only [List.length_cons]
      have e1 : r + ((((walk board player dr dc f (r + dr) (c + dc)).length + 1 : Nat)) : Int) * dr
          = r + dr + ((walk board player dr dc f (r + dr) (c + dc)).length : Int) * dr := by
        push_cast; ring
      have e2 : c + ((((walk board player dr dc f (r + dr) (c + dc)).length + 1 : Nat)) : Int) * dc
          = c + dc + ((walk board player dr dc f (r + dr) (c + dc)).length : Int) * dc := by
        push_cast; ring
      rw [e1, e2]; exact this
    · rename_i hc
      simpa using hc

theorem le_walk_length_iff (board : Board) (player : Role) (dr dc : Int)
    (fuel : Nat) (r c : Int) (k : Nat) (hk : k ≤ fuel) :
    k ≤ (walk board player dr dc fuel r c).length ↔
      ∀ i : Nat, i < k → walkCond board player (r + (i : Int) * dr) (c + (i : Int) * dc) := by
  constructor
  · intro h i hi
    exact walk_all_cond board player dr dc fuel r c i (by omega)
  · intro h
    by_contra hlt
    have hlt : (walk board player dr dc fuel r c).length < k := by omega
    exact walk_stop board player dr dc fuel r c (by omega) (h _ hlt)


theorem axisCells_length (board : Board) (row col : Int) (player : Role) (d : Coord × Coord) :
    (axisCells board row col player d).length =
      1 + (walk board player d.1.1 d.1.2 10 (row + d.1.1) (col + d.1.2)).length
        + (walk board player d.2.1 d.2.2 10 (row + d.2.1) (col + d.2.2)).length := by
  simp [axisCells]; omega

theorem axis_length_iff (board : Board) (player : Role) (row col dr dc : Int)
    (h0 : walkCond board player row col) :
    4 ≤ (axisCells board row col player ((dr, dc), (-dr, -dc))).length ↔
      ∃ j ∈ List.range 4, ∀ i ∈ List.range 4,
        holds board player (row + ((i : Int) - (j : Int)) * dr) (col + ((i : Int) - (j : Int)) * dc) := by
  rw [axisCells_length]
  simp only
  set n1 := (walk board player dr dc 10 (row + dr) (col + dc)).length with hn1
  set n2 := (walk board player (-dr) (-dc) 10 (row + -dr) (col + -dc)).length with hn2
  have A := walk_all_cond board player dr dc 10 (row + dr) (col + dc)
  have B := walk_all_cond board player (-dr) (-dc) 10 (row + -dr) (col + -dc)
  rw [← hn1] at A
  rw [← hn2] at B
  constructor
  · intro h
    refine ⟨min n2 3, by rw [List.mem_range]; omega, ?_⟩
    intro i hi
    rw [List.mem_range] at hi
    rw [← walkCond_iff_holds]
    rcases lt_trichotomy i (min n2 3) with hlt | heq | hgt
    · -- before the origin
      have := B (min n2 3 - i - 1) (by omega)
      have e1 : row + -dr + ((min n2 3 - i - 1 : Nat) : Int) * -dr
          = row + ((i : Int) - ((min n2 3 : Nat) : Int)) * dr := by
        have : ((min n2 3 - i - 1 : Nat) : Int) = ((min n2 3 : Nat) : Int) - i - 1 := by omega
        rw [this]; ring
      have e2 : col + -dc + ((min n2 3 - i - 1 : Nat) : Int) * -dc
          = col + ((i : Int) - ((min n2 3 : Nat) : Int)) * dc := by
        have : ((min n2 3 - i - 1 : Nat) : Int) = ((min n2 3 : Nat) : Int) - i - 1 := by omega
        rw [this]; ring
      rw [e1, e2] at this; exact this
    · subst heq
      simpa using h0
    · have := A (i - min n2 3 - 1) (by omega)
      have e1 : row + dr + ((i - min n2 3 - 1 : Nat) : Int) * dr
          = row + ((i : Int) - ((min n2 3 : Nat) : Int)) * dr := by
        have : ((i - min n2 3 - 1 : Nat) : Int) = (i : Int) - ((min n2 3 : Nat) : Int) - 1 := by omega
        rw [this]; ring
      have e2 : col + dc + ((i - min n2 3 - 1 : Nat) : Int) * dc
          = col + ((i : Int) - ((min n2 3 : Nat) : Int)) * dc := by
        have : ((i - min n2 3 - 1 : Nat) : Int) = (i : Int) - ((min n2 3 : Nat) : Int) - 1 := by omega
        rw [this]; ring
      rw [e1, e2] at this; exact this
  · rintro ⟨j, hj, h⟩
    rw [List.mem_range] at hj
    have h1 : 3 - j ≤ n1 := by
      rw [hn1, le_walk_length_iff board player dr dc 10 _ _ (3 - j) (by omega)]
      intro i hi
      have := h (i + 1 + j) (by rw [List.mem_range]; omega)
      rw [← walkCond_iff_holds] at this
      have e1 : row + (((i + 1 + j : Nat) : Int) - (j : Int)) * dr = row + dr + (i : Int) * dr := by
        push_cast; ring
      have e2 : col + (((i + 1 + j : Nat) : Int) - (j : Int)) * dc = col + dc + (i : Int) * dc := by
        push_cast; ring
      rw [e1, e2] at this; exact this
    have h2 : j ≤ n2 := by
      rw [hn2, le_walk_length_iff board player (-dr) (-dc) 10 _ _ j (by omega)]
      intro i hi
      have := h (j - (i + 1)) (by rw [List.mem_range]; omega)
      rw [← walkCond_iff_holds] at this
      have e0 : ((j - (i + 1) : Nat) : Int) = (j : Int) - i - 1 := by omega
      have e1 : row + (((j - (i + 1) : Nat) : Int) - (j : Int)) * dr = row + -dr + (i : Int) * -dr := by
        rw [e0]; ring
      have e2 : col + (((j - (i + 1) : Nat) : Int) - (j : Int)) * dc = col + -dc + (i : Int) * -dc := by
        rw [e0]; ring
      rw [e1, e2] at this; exact this
    omega

theorem checkWinLoop_some (board : Board) (row col : Int) (player : Role) (cells : List Coord) :
    ∀ ds : List (Coord × Coord), checkWinLoop board row col player ds = some cells →
      ∃ d ∈ ds, cells = axisCells board row col player d ∧ 4 ≤ cells.length := by
  intro ds
  induction ds with
  | nil => intro h; simp [checkWinLoop] at h
  | cons d ds ih =>
    intro h
    unfold checkWinLoop at h
    split at h
    · rename_i h4
      simp only [Option.some.injEq] at h
      subst h
      exact ⟨d, by simp, rfl, h4⟩
    · obtain ⟨d', hd', h'⟩ := ih h
      exact ⟨d', by simp [hd'], h'⟩

theorem checkWinLoop_none (board : Board) (row col : Int) (player : Role) :
    ∀ ds : List (Coord × Coord), checkWinLoop board row col player ds = none ↔
      ∀ d ∈ ds, ¬ 4 ≤ (axisCells board row col player d).length := by
  intro ds
  induction ds with
  | nil => simp [checkWinLoop]
  | cons d ds ih =>
    unfold checkWinLoop
    split
    · rename_i h4
      simp [h4]
    · rename_i h4
      rw [ih]
      constructor
      · intro h d' hd'
        rcases List.mem_cons.1 hd' with rfl | h'
        · exact h4
        · exact h d' h'
      · intro h d' hd'
        exact h d' (List.mem_cons_of_mem _ hd')

theorem fourInLine_iff_axis (board : Board) (player : Role) (row col : Int)
    (h0 : holds board player row col) :
    fourInLine board player row col ↔
      ∃ d ∈ directions, 4 ≤ (axisCells board row col player d).length := by
  have h0' := (walkCond_iff_holds board player row col).2 h0
  have a1 := axis_length_iff board player row col 0 1 h0'
  have a2 := axis_length_iff board player row col 1 0 h0'
  have a3 := axis_length_iff board player row col 1 1 h0'
  have a4 := axis_length_iff board player row col 1 (-1) h0'
  simp only [neg_neg, neg_zero] at a1 a2 a3 a4
  unfold fourInLine axes directions
  simp only [List.mem_cons, List.mem_singleton, exists_eq_or_imp, exists_eq_left, List.not_mem_nil,
    false_and, exists_false, or_false]
  rw [a1, a2, a3, a4]

/-- C1: when the cell `(row, col)` holds `player`, `checkWin` returns a list of at least four
cells exactly when four contiguous cells along one of the four axes, `(row, col)` among them,
all hold `player`; otherwise it returns `null`. -/
theorem checkWin_iff_fourInLine (board : Board) (player : Role) (row col : Int)
    (h0 : holds board player row col) :
    ((∃ cells, checkWin board row col player = some cells ∧ 4 ≤ cells.length) ↔
        fourInLine board player row col) ∧
      (¬ fourInLine board player row col → checkWin board row col player = none) := by
  rw [fourInLine_iff_axis board player row col h0]
  refine ⟨⟨?_, ?_⟩, ?_⟩
  · rintro ⟨cells, hc, _⟩
    obtain ⟨d, hd, he, h4⟩ := checkWinLoop_some board row col player cells directions hc
    exact ⟨d, hd, he ▸ h4⟩
  · intro h
    cases hc : checkWin board row col player with
    | none =>
      exfalso
      obtain ⟨d, hd, h4⟩ := h
      exact (checkWinLoop_none board row col player directions).1 hc d hd h4
    | some cells =>
      obtain ⟨d, _, _, h4⟩ := checkWinLoop_some board row col player cells directions hc
      exact ⟨cells, rfl, h4⟩
  · intro h
    apply (checkWinLoop_none board row col player directions).2
    intro d hd h4
    exact h ⟨d, hd, h4⟩

theorem walk_mem (board : Board) (player : Role) (dr dc : Int) :
    ∀ (fuel : Nat) (r c : Int) (p : Coord), p ∈ walk board player dr dc fuel r c →
      walkCond board player p.1 p.2 := by
  intro fuel
  induction fuel with
  | zero => intro r c p hp; simp [walk] at hp
  | succ f ih =>
    intro r c p hp
    unfold walk at hp
    split at hp
    · rename_i hc
      rcases List.mem_cons.1 hp with rfl | h
      · exact hc
      · exact ih _ _ p h
    · simp at hp

theorem walk_maximal (board : Board) (player : Role) (dr dc : Int)
    (hd : dr = 1 ∨ dr = -1 ∨ dc = 1 ∨ dc = -1) (fuel : Nat) (hf : 10 ≤ fuel) (r c : Int) :
    ¬ walkCond board player
        (r + ((walk board player dr dc fuel r c).length : Int) * dr)
        (c + ((walk board player dr dc fuel r c).length : Int) * dc) := by
  by_cases hlt : (walk board player dr dc fuel r c).length < fuel
  · exact walk_stop board player dr dc fuel r c hlt
  · have h0 := walk_all_cond board player dr dc fuel r c 0 (by omega)
    intro hn
    unfold walkCond at h0 hn
    have hlen : (10 : Int) ≤ ((walk board player dr dc fuel r c).length : Int) := by omega
    generalize ((walk board player dr dc fuel r c).length : Int) = n at hn hlen
    simp only [Nat.cast_zero, zero_mul, add_zero] at h0
    rcases hd with h | h | h | h <;> subst h <;> omega

theorem walk_fuel_stable (board : Board) (player : Role) (dr dc : Int)
    (hd : dr = 1 ∨ dr = -1 ∨ dc = 1 ∨ dc = -1) (fuel : Nat) (hf : 10 ≤ fuel) (r c : Int) :
    walk board player dr dc fuel r c = walk board player dr dc 10 r c := by
  have hlen : (walk board player dr dc fuel r c).length = (walk board player dr dc 10 r c).length := by
    apply le_antisymm
    · by_contra hlt
      have hlt : (walk board player dr dc 10 r c).length < (walk board player dr dc fuel r c).length := by
        omega
      exact walk_maximal board player dr dc hd 10 (le_refl _) r c
        (walk_all_cond board player dr dc fuel r c _ hlt)
    · by_contra hlt
      have hlt : (walk board player dr dc fuel r c).length < (walk board player dr dc 10 r c).length := by
        omega
      exact walk_maximal board player dr dc hd fuel hf r c
        (walk_all_cond board player dr dc 10 r c _ hlt)
  rw [walk_eq_map board player dr dc fuel r c, walk_eq_map board player dr dc 10 r c, hlen]

theorem walk_isMaxRun (board : Board) (player : Role) (row col dr dc : Int)
    (hd : dr = 1 ∨ dr = -1 ∨ dc = 1 ∨ dc = -1) :
    IsMaxRun board player row col dr dc (walk board player dr dc 10 (row + dr) (col + dc)) := by
  refine ⟨?_, ?_, ?_⟩
  · conv_lhs => rw [walk_eq_map board player dr dc 10 (row + dr) (col + dc)]
    apply List.map_congr_left
    intro i _
    simp only [Prod.mk.injEq]
    constructor <;> ring
  · intro p hp
    exact (walkCond_iff_holds board player p.1 p.2).1 (walk_mem board player dr dc 10 _ _ p hp)
  · rw [← walkCond_iff_holds]
    have := walk_maximal board player dr dc hd 10 (le_refl _) (row + dr) (col + dc)
    have e1 : row + (((walk board player dr dc 10 (row + dr) (col + dc)).length : Int) + 1) * dr
        = row + dr + ((walk board player dr dc 10 (row + dr) (col + dc)).length : Int) * dr := by ring
    have e2 : col + (((walk board player dr dc 10 (row + dr) (col + dc)).length : Int) + 1) * dc
        = col + dc + ((walk board player dr dc 10 (row + dr) (col + dc)).length : Int) * dc := by ring
    rw [e1, e2]; exact this

theorem IsMaxRun.length_unique {board : Board} {player : Role} {row col dr dc : Int}
    {l l' : List Coord} (h : IsMaxRun board player row col dr dc l)
    (h' : IsMaxRun board player row col dr dc l') : l.length ≤ l'.length := by
  by_contra hlt
  have hlt : l'.length < l.length := by omega
  apply h'.2.2
  have hm : (row + ((l'.length : Int) + 1) * dr, col + ((l'.length : Int) + 1) * dc) ∈ l := by
    rw [h.1]
    exact List.mem_map.2 ⟨l'.length, by simpa using hlt, rfl⟩
  exact h.2.1 _ hm

theorem IsMaxRun.unique {board : Board} {player : Role} {row col dr dc : Int}
    {l l' : List Coord} (h : IsMaxRun board player row col dr dc l)
    (h' : IsMaxRun board player row col dr dc l') : l = l' := by
  have e : l.length = l'.length := le_antisymm (h.length_unique h') (h'.length_unique h)
  rw [h.1, h'.1, e]

theorem checkWinLoop_first (board : Board) (row col : Int) (player : Role) (cells : List Coord) :
    ∀ ds : List (Coord × Coord), checkWinLoop board row col player ds = some cells →
      ∃ k d, ds.get? k = some d ∧ cells = axisCells board row col player d ∧ 4 ≤ cells.length ∧
        ∀ k' d', k' < k → ds.get? k' = some d' →
          (axisCells board row col player d').length < 4 := by
  intro ds
  induction ds with
  | nil => intro h; simp [checkWinLoop] at h
  | cons d ds ih =>
    intro h
    unfold checkWinLoop at h
    split at h
    · rename_i h4
      simp only [Option.some.injEq] at h
      subst h
      exact ⟨0, d, rfl, rfl, h4, by intro k' d' hk; omega⟩
    · rename_i h4
      obtain ⟨k, d1, hk, he, hlen, hfirst⟩ := ih h
      refine ⟨k + 1, d1, by simpa using hk, he, hlen, ?_⟩
      intro k' d' hk' hget
      cases k' with
      | zero =>
        simp only [List.get?_cons_zero, Option.some.injEq] at hget
        subst hget; omega
      | succ k' => exact hfirst k' d' (by omega) (by simpa using hget)

theorem axisCells_nodup (board : Board) (row col : Int) (player : Role) (d : Coord × Coord)
    (hd : d ∈ directions) : (axisCells board row col player d).Nodup := by
  unfold axisCells
  rw [walk_eq_map board player d.1.1 d.1.2 10, walk_eq_map board player d.2.1 d.2.2 10]
  generalize (walk board player d.1.1 d.1.2 10 (row + d.1.1) (col + d.1.2)).length = n1
  generalize (walk board player d.2.1 d.2.2 10 (row + d.2.1) (col + d.2.2)).length = n2
  simp only [directions, List.mem_cons, List.mem_singleton, List.not_mem_nil, or_false] at hd
  rw [List.append_assoc, List.singleton_append, List.nodup_cons, List.nodup_append]
  refine ⟨?_, ?_, ?_, ?_⟩
  · simp only [List.mem_append, List.mem_map, List.mem_range, Prod.mk.injEq, not_or, not_exists,
      not_and]
    rcases hd with h | h | h | h <;> subst h <;> constructor <;> intro i _ <;> simp <;> omega
  · apply List.Nodup.map_on _ (List.nodup_range _)
    intro i _ j _ hij
    simp only [Prod.mk.injEq] at hij
    rcases hd with h | h | h | h <;> subst h <;> simp at hij <;> omega
  · apply List.Nodup.map_on _ (List.nodup_range _)
    intro i _ j _ hij
    simp only [Prod.mk.injEq] at hij
    rcases hd with h | h | h | h <;> subst h <;> simp at hij <;> omega
  · intro p hp hq
    simp only [List.mem_map, List.mem_range] at hp hq
    obtain ⟨i, _, rfl⟩ := hp
    obtain ⟨j, _, hj⟩ := hq
    simp only [Prod.mk.injEq] at hj
    rcases hd with h | h | h | h <;> subst h <;> simp at hj <;> omega


theorem directions_unit (d : Coord × Coord) (hd : d ∈ directions) :
    (d.1.1 = 1 ∨ d.1.1 = -1 ∨ d.1.2 = 1 ∨ d.1.2 = -1) ∧
      (d.2.1 = 1 ∨ d.2.1 = -1 ∨ d.2.2 = 1 ∨ d.2.2 = -1) := by
  simp only [directions, List.mem_cons, List.mem_singleton, List.not_mem_nil, or_false] at hd
  rcases hd with h | h | h | h <;> subst h <;> simp

/-- C2: a list returned by `checkWin` is the origin, then the maximal run in the first
direction of an axis, then the maximal run in the opposite direction; the axis is the first
one of `directions` (horizontal, vertical, diagonal `(1,1)`, diagonal `(1,-1)`) that collects
at least four cells; the list has no duplicate and every cell but the origin holds `player`. -/
theorem checkWin_cells (board : Board) (player : Role) (row col : Int) (cells : List Coord)
    (h : checkWin board row col player = some cells) :
    ∃ k d run1 run2, directions.get? k = some d ∧
      IsMaxRun board player row col d.1.1 d.1.2 run1 ∧
      IsMaxRun board player row col d.2.1 d.2.2 run2 ∧
      cells = (row, col) :: (run1 ++ run2) ∧ 4 ≤ cells.length ∧
      (∀ k' d' r1 r2, k' < k → directions.get? k' = some d' →
        IsMaxRun board player row col d'.1.1 d'.1.2 r1 →
        IsMaxRun board player row col d'.2.1 d'.2.2 r2 →
        ((row, col) :: (r1 ++ r2)).length < 4) ∧
      cells.Nodup ∧ ∀ p ∈ cells, p ≠ (row, col) → holds board player p.1 p.2 := by
  obtain ⟨k, d, hk, he, hlen, hfirst⟩ := checkWinLoop_first board row col player cells directions h
  have hd : d ∈ directions := List.get?_mem hk
  have hu := directions_unit d hd
  have m1 := walk_isMaxRun board player row col d.1.1 d.1.2 hu.1
  have m2 := walk_isMaxRun board player row col d.2.1 d.2.2 hu.2
  refine ⟨k, d, _, _, hk, m1, m2, ?_, hlen, ?_, ?_, ?_⟩
  · rw [he]; simp [axisCells]
  · intro k' d' r1 r2 hk' hget h1 h2
    have hd' : d' ∈ directions := List.get?_mem hget
    have hu' := directions_unit d' hd'
    have e1 := h1.unique (walk_isMaxRun board player row col d'.1.1 d'.1.2 hu'.1)
    have e2 := h2.unique (walk_isMaxRun board player row col d'.2.1 d'.2.2 hu'.2)
    have := hfirst k' d' hk' hget
    rw [e1, e2]
    simpa [axisCells] using this
  · rw [he]; exact axisCells_nodup board row col player d hd
  · intro p hp hne
    rw [he] at hp
    simp only [axisCells, List.mem_append, List.mem_singleton] at hp
    rcases hp with (hp | hp) | hp
    · exact absurd hp hne
    · exact m1.2.1 p hp
    · exact m2.2.1 p hp


/-! ## Lemmas on maps and boards -/

theorem mapGet_mapSet_self {ν : Type} (m : List (String × ν)) (k : String) (v : ν) :
    mapGet (mapSet m k v) k = some v := by
  induction m with
  | nil => simp [mapSet, mapGet]
  | cons e m ih =>
    obtain ⟨k', v'⟩ := e
    unfold mapSet
    split
    · simp [mapGet]
    · rename_i hne
      simp [mapGet, hne, ih]

theorem mapGet_mapSet_ne {ν : Type} (m : List (String × ν)) (k k' : String) (v : ν)
    (h : k' ≠ k) : mapGet (mapSet m k v) k' = mapGet m k' := by
  induction m with
  | nil => simp [mapSet, mapGet, Ne.symm h]
  | cons e m ih =>
    obtain ⟨k1, v1⟩ := e
    unfold mapSet
    split
    · rename_i he
      subst he
      simp [mapGet, Ne.symm h]
    · simp [mapGet, ih]

theorem mapSet_of_mapGet {ν : Type} (m : List (String × ν)) (k : String) (v : ν)
    (h : mapGet m k = some v) : mapSet m k v = m := by
  induction m with
  | nil => simp [mapGet] at h
  | cons e m ih =>
    obtain ⟨k1, v1⟩ := e
    unfold mapGet at h
    unfold mapSet
    split
    · rename_i he
      rw [if_pos he] at h
      simp only [Option.some.injEq] at h
      subst h; subst he; rfl
    · rename_i he
      rw [if_neg he] at h
      rw [ih h]

theorem mapGet_mapDelete_self {ν : Type} (m : List (String × ν)) (k : String) :
    mapGet (mapDelete m k) k = none := by
  induction m with
  | nil => simp [mapDelete, mapGet]
  | cons e m ih =>
    obtain ⟨k1, v1⟩ := e
    unfold mapDelete
    split
    · exact ih
    · rename_i he
      simp [mapGet, he, ih]

theorem mapGet_mapDelete_ne {ν : Type} (m : List (String × ν)) (k k' : String) (h : k' ≠ k) :
    mapGet (mapDelete m k) k' = mapGet m k' := by
  induction m with
  | nil => simp [mapDelete, mapGet]
  | cons e m ih =>
    obtain ⟨k1, v1⟩ := e
    unfold mapDelete
    split
    · rename_i he
      subst he
      simp [mapGet, Ne.symm h, ih]
    · simp [mapGet, ih]

theorem cellAt_eq_some_iff (board : Board) (r c : Int) (v : Cell) :
    cellAt board r c = some v ↔
      0 ≤ r ∧ 0 ≤ c ∧ ∃ row, board[r.toNat]? = some row ∧ row[c.toNat]? = some v := by
  unfold cellAt jsIndex
  by_cases hr : 0 ≤ r
  · by_cases hc : 0 ≤ c
    · simp [hr, hc, Option.bind_eq_some]
    · simp [hr, hc]
  · simp [hr]

theorem cellAt_setCell_self (board : Board) (row : Nat) (col : Int) (v : Cell)
    (h : cellAt board row col ≠ none) :
    cellAt (setCell board row col v) row col = some v := by
  obtain ⟨w, hw⟩ := Option.ne_none_iff_exists'.1 h
  obtain ⟨_, hc, l, hl, hcell⟩ := (cellAt_eq_some_iff board row col w).1 hw
  rw [cellAt_eq_some_iff]
  simp only [Int.toNat_ofNat] at hl
  have hrow : row < board.length := by
    rcases Nat.lt_or_ge row board.length with h | h
    · exact h
    · rw [List.getElem?_eq_none h] at hl; cases hl
  have hcol : col.toNat < l.length := by
    rcases Nat.lt_or_ge col.toNat l.length with h | h
    · exact h
    · rw [List.getElem?_eq_none h] at hcell; cases hcell
  refine ⟨by omega, hc, l.set col.toNat v, ?_, ?_⟩
  · simp only [setCell, Int.toNat_ofNat, List.getElem?_set_self hrow, List.getD_eq_getElem?_getD,
      hl, Option.getD_some]
  · exact List.getElem?_set_self hcol

theorem cellAt_setCell_ne (board : Board) (row : Nat) (col : Int) (v : Cell) (r c : Int)
    (hcol : 0 ≤ col) (hne : ¬ (r = row ∧ c = col)) :
    cellAt (setCell board row col v) r c = cellAt board r c := by
  unfold cellAt jsIndex setCell
  by_cases hr : 0 ≤ r
  · by_cases hc : 0 ≤ c
    · simp only [hr, hc, if_true, List.get?_eq_getElem?]
      by_cases hrr : row = r.toNat
      · have hcc : col.toNat ≠ c.toNat := by
          intro h
          apply hne
          constructor <;> omega
        rw [List.getElem?_set]
        simp only [hrr, if_true]
        split
        · rename_i hlt
          simp only [Option.some_bind, List.getElem?_set_ne hcc, List.getD_eq_getElem?_getD]
          rw [List.getElem?_eq_getElem hlt]
          simp
        · rename_i hlt
          rw [List.getElem?_eq_none (by omega)]
      · rw [List.getElem?_set_ne hrr]
    · simp [hr, hc]
  · simp [hr]

theorem findRowFrom_some (board : Board) (col : Int) :
    ∀ (n row : Nat), findRowFrom board col n = some row →
      row < n ∧ cellAt board row col = some none ∧
        ∀ r : Nat, row < r → r < n → cellAt board r col ≠ some none := by
  intro n
  induction n with
  | zero => intro row h; simp [findRowFrom] at h
  | succ n ih =>
    intro row h
    unfold findRowFrom at h
    split at h
    · rename_i hc
      simp only [Option.some.injEq] at h
      subst h
      exact ⟨by omega, hc, by intro r h1 h2; omega⟩
    · rename_i hc
      obtain ⟨h1, h2, h3⟩ := ih row h
      refine ⟨by omega, h2, ?_⟩
      intro r hr1 hr2
      by_cases hrn : r = n
      · subst hrn; exact hc
      · exact h3 r hr1 (by omega)

theorem findRowFrom_none (board : Board) (col : Int) :
    ∀ n : Nat, findRowFrom board col n = none ↔
      ∀ r : Nat, r < n → cellAt board r col ≠ some none := by
  intro n
  induction n with
  | zero => simp [findRowFrom]
  | succ n ih =>
    unfold findRowFrom
    split
    · rename_i hc
      constructor
      · intro h; cases h
      · intro h; exact absurd hc (h n (by omega))
    · rename_i hc
      rw [ih]
      constructor
      · intro h r hr
        by_cases hrn : r = n
        · subst hrn; exact hc
        · exact h r (by omega)
      · intro h r hr
        exact h r (by omega)

theorem findRow_some (board : Board) (col : Int) (row : Nat) (h : findRow board col = some row) :
    row < 10 ∧ 0 ≤ col ∧ cellAt board row col = some none ∧
      ∀ r : Nat, row < r → r < 10 → cellAt board r col ≠ some none := by
  obtain ⟨h1, h2, h3⟩ := findRowFrom_some board col 10 row h
  exact ⟨h1, ((cellAt_eq_some_iff board row col none).1 h2).2.1, h2, h3⟩


/-! ## Lemmas on the `makeMove` handler -/

theorem makeMove_eq (st : Server) (sid : SocketId) (roomId : RoomId) (col : Int) (room : Room)
    (h : mapGet st.rooms roomId = some room) :
    makeMove st sid roomId col =
      ({ st with rooms := mapSet st.rooms roomId (makeMoveRoom room sid roomId col).1 },
        (makeMoveRoom room sid roomId col).2) := by
  simp [makeMove, h]

theorem makeMove_unchanged (st : Server) (sid : SocketId) (roomId : RoomId) (col : Int)
    (room : Room) (h : mapGet st.rooms roomId = some room)
    (h1 : (makeMoveRoom room sid roomId col).1 = room) :
    (makeMove st sid roomId col).1 = st := by
  rw [makeMove_eq st sid roomId col room h]
  simp only [h1, mapSet_of_mapGet st.rooms roomId room h]

theorem makeMoveRoom_over (room : Room) (sid : SocketId) (roomId : RoomId) (col : Int)
    (h : room.gameOver = true) : makeMoveRoom room sid roomId col = (room, []) := by
  simp [makeMoveRoom, h]

theorem makeMoveRoom_notTurn (room : Room) (sid : SocketId) (roomId : RoomId) (col : Int)
    (h : room.gameOver = false) (ht : mapGet room.playerRoles sid ≠ some room.currentPlayer) :
    makeMoveRoom room sid roomId col =
      (room, [Emit.toSocket sid (Payload.error errNotYourTurn)]) := by
  simp [makeMoveRoom, h, ht]

theorem makeMoveRoom_full (room : Room) (sid : SocketId) (roomId : RoomId) (col : Int)
    (h : room.gameOver = false) (ht : mapGet room.playerRoles sid = some room.currentPlayer)
    (hf : findRow room.board col = none) :
    makeMoveRoom room sid roomId col = (room, []) := by
  simp [makeMoveRoom, h, ht, hf]

theorem makeMoveRoom_board (room : Room) (sid : SocketId) (roomId : RoomId) (col : Int)
    (row : Nat) (h : room.gameOver = false)
    (ht : mapGet room.playerRoles sid = some room.currentPlayer)
    (hf : findRow room.board col = some row) :
    (makeMoveRoom room sid roomId col).1.board =
      setCell room.board row col (some room.currentPlayer) := by
  simp only [makeMoveRoom, h, ht, hf]
  simp only [Bool.false_eq_true, if_false, ne_eq, not_true_eq_false]
  split
  · rfl
  · split <;> rfl

theorem makeMoveRoom_win (room : Room) (sid : SocketId) (roomId : RoomId) (col : Int)
    (row : Nat) (cells : List Coord) (h : room.gameOver = false)
    (ht : mapGet room.playerRoles sid = some room.currentPlayer)
    (hf : findRow room.board col = some row)
    (hw : checkWin (setCell room.board row col (some room.currentPlayer)) row col
      room.currentPlayer = some cells) :
    makeMoveRoom room sid roomId col =
      ({ room with board := setCell room.board row col (some room.currentPlayer),
                   gameOver := true },
        [Emit.toRoom roomId (Payload.gameOver (some room.currentPlayer) (some cells)
          (setCell room.board row col (some room.currentPlayer)))]) := by
  simp [makeMoveRoom, h, ht, hf, hw]

theorem makeMoveRoom_next (room : Room) (sid : SocketId) (roomId : RoomId) (col : Int)
    (row : Nat) (h : room.gameOver = false)
    (ht : mapGet room.playerRoles sid = some room.currentPlayer)
    (hf : findRow room.board col = some row)
    (hw : checkWin (setCell room.board row col (some room.currentPlayer)) row col
      room.currentPlayer = none)
    (hb : isBoardFull (setCell room.board row col (some room.currentPlayer)) = false) :
    makeMoveRoom room sid roomId col =
      ({ room with board := setCell room.board row col (some room.currentPlayer),
                   currentPlayer := otherRole room.currentPlayer },
        [Emit.toRoom roomId (Payload.moveMade row col (some room.currentPlayer)
          (otherRole room.currentPlayer)
          (setCell room.board row col (some room.currentPlayer)))]) := by
  simp [makeMoveRoom, h, ht, hf, hw, hb]

/-- C4: an accepted move into a column with an empty cell writes the mover's role at the
lowest empty cell of the column (the largest row index below 10 whose cell is empty) and
changes no other cell. -/
theorem makeMove_drops_lowest (st : Server) (sid : SocketId) (roomId : RoomId) (col : Int)
    (room : Room) (hroom : mapGet st.rooms roomId = some room)
    (hover : room.gameOver = false)
    (hturn : mapGet room.playerRoles sid = some room.currentPlayer)
    (hempty : ∃ r : Nat, r < 10 ∧ cellAt room.board r col = some none) :
    ∃ (row : Nat) (room1 : Room), row < 10 ∧ 0 ≤ col ∧
      cellAt room.board row col = some none ∧
      (∀ r : Nat, row < r → r < 10 → cellAt room.board r col ≠ some none) ∧
      mapGet (makeMove st sid roomId col).1.rooms roomId = some room1 ∧
      cellAt room1.board row col = some (mapGet room.playerRoles sid) ∧
      ∀ r c : Int, ¬ (r = row ∧ c = col) → cellAt room1.board r c = cellAt room.board r c := by
  cases hf : findRow room.board col with
  | none =>
    obtain ⟨r, hr, hc⟩ := hempty
    exact absurd hc ((findRowFrom_none room.board col 10).1 hf r hr)
  | some row =>
    obtain ⟨h1, h2, h3, h4⟩ := findRow_some room.board col row hf
    refine ⟨row, (makeMoveRoom room sid roomId col).1, h1, h2, h3, h4, ?_, ?_, ?_⟩
    · rw [makeMove_eq st sid roomId col room hroom]
      exact mapGet_mapSet_self _ _ _
    · rw [makeMoveRoom_board room sid roomId col row hover hturn hf, hturn]
      exact cellAt_setCell_self _ _ _ _ (by rw [h3]; simp)
    · intro r c hne
      rw [makeMoveRoom_board room sid roomId col row hover hturn hf]
      exact cellAt_setCell_ne _ _ _ _ _ _ h2 hne

/-- C5: a move by the player whose turn it is, on an existing room whose game is not over,
into a column without empty cell leaves the whole server state unchanged and emits
nothing. -/
theorem makeMove_full_column (st : Server) (sid : SocketId) (roomId : RoomId) (col : Int)
    (room : Room) (hroom : mapGet st.rooms roomId = some room)
    (hover : room.gameOver = false)
    (hturn : mapGet room.playerRoles sid = some room.currentPlayer)
    (hfull : ∀ r : Nat, r < 10 → cellAt room.board r col ≠ some none) :
    makeMove st sid roomId col = (st, []) := by
  have hf : findRow room.board col = none := (findRowFrom_none room.board col 10).2 hfull
  have hr := makeMoveRoom_full room sid roomId col hover hturn hf
  rw [makeMove_eq st sid roomId col room hroom, hr]
  simp only [mapSet_of_mapGet st.rooms roomId room hroom]


theorem checkWin_some_of_fourInLine (board : Board) (player : Role) (row col : Int)
    (h0 : holds board player row col) (h : fourInLine board player row col) :
    ∃ cells, checkWin board row col player = some cells ∧ 4 ≤ cells.length := by
  rw [fourInLine_iff_axis board player row col h0] at h
  cases hc : checkWin board row col player with
  | none =>
    exfalso
    obtain ⟨d, hd, h4⟩ := h
    exact (checkWinLoop_none board row col player directions).1 hc d hd h4
  | some cells =>
    obtain ⟨d, _, _, h4⟩ := checkWinLoop_some board row col player cells directions hc
    exact ⟨cells, rfl, h4⟩

/-- The vertical win on column 0 in an arbitrary state: the list returned by `checkWin` is
rows 6, 7, 8, 9 of column 0 when row 6 is not completed in columns 1, 2, 3 and row 5 of
column 0 is not X. -/
theorem vertical_win_any_state (st : Server) (sid : SocketId) (roomId : RoomId) (room : Room)
    (hroom : mapGet st.rooms roomId = some room) (hover : room.gameOver = false)
    (hcp : room.currentPlayer = Role.X)
    (hturn : mapGet room.playerRoles sid = some Role.X)
    (hland : findRow room.board 0 = some 6)
    (h7 : cellAt room.board 7 0 = some (some Role.X))
    (h8 : cellAt room.board 8 0 = some (some Role.X))
    (h9 : cellAt room.board 9 0 = some (some Role.X)) :
    ∃ cells, checkWin (setCell room.board 6 0 (some Role.X)) 6 0 Role.X = some cells ∧
      4 ≤ cells.length ∧
      makeMove st sid roomId 0 =
        ({ st with
            rooms := mapSet st.rooms roomId
              { room with board := setCell room.board 6 0 (some Role.X), gameOver := true } },
          [Emit.toRoom roomId (Payload.gameOver (some Role.X) (some cells)
            (setCell room.board 6 0 (some Role.X)))]) ∧
      (¬ (cellAt room.board 6 1 = some (some Role.X) ∧ cellAt room.board 6 2 = some (some Role.X)
            ∧ cellAt room.board 6 3 = some (some Role.X)) →
        cellAt room.board 5 0 ≠ some (some Role.X) →
        cells = [(6, 0), (7, 0), (8, 0), (9, 0)]) := by
  obtain ⟨_, _, hnull, _⟩ := findRow_some room.board 0 6 hland
  have c6 : cellAt (setCell room.board 6 0 (some Role.X)) 6 0 = some (some Role.X) := by
    have := cellAt_setCell_self room.board 6 0 (some Role.X) (by rw [hnull]; simp)
    simpa using this
  have cne : ∀ r c : Int, ¬ (r = 6 ∧ c = 0) →
      cellAt (setCell room.board 6 0 (some Role.X)) r c = cellAt room.board r c := by
    intro r c hne
    exact cellAt_setCell_ne room.board 6 0 _ r c (le_refl _) (by simpa using hne)
  have c7 := (cne 7 0 (by omega)).trans h7
  have c8 := (cne 8 0 (by omega)).trans h8
  have c9 := (cne 9 0 (by omega)).trans h9
  have hline : fourInLine (setCell room.board 6 0 (some Role.X)) Role.X 6 0 := by
    refine ⟨(1, 0), by simp [axes], 0, by simp, ?_⟩
    intro i hi
    rw [List.mem_range] at hi
    have : i = 0 ∨ i = 1 ∨ i = 2 ∨ i = 3 := by omega
    rcases this with h | h | h | h <;> subst h <;> simp [holds, c6, c7, c8, c9]
  obtain ⟨cells, hcells, hlen⟩ := checkWin_some_of_fourInLine _ Role.X 6 0
    (by simp [holds, c6]) hline
  refine ⟨cells, hcells, hlen, ?_, ?_⟩
  · rw [makeMove_eq st sid roomId 0 room hroom,
      makeMoveRoom_win room sid roomId 0 6 cells hover (by rw [hturn, hcp]) hland
        (by rw [hcp]; exact hcells)]
    simp only [hcp]
  · intro hrow h5
    have c5 : cellAt (setCell room.board 6 0 (some Role.X)) 5 0 ≠ some (some Role.X) := by
      rw [cne 5 0 (by omega)]; exact h5
    have hh : ¬ 3 ≤ (walk (setCell room.board 6 0 (some Role.X)) Role.X 0 1 10 (6 + 0) (0 + 1)).length := by
      rw [le_walk_length_iff _ _ _ _ 10 _ _ 3 (by omega)]
      intro hall
      apply hrow
      have a0 := hall 0 (by omega)
      have a1 := hall 1 (by omega)
      have a2 := hall 2 (by omega)
      simp only [walkCond] at a0 a1 a2
      norm_num at a0 a1 a2
      rw [cne 6 1 (by omega)] at a0
      rw [cne 6 2 (by omega)] at a1
      rw [cne 6 3 (by omega)] at a2
      exact ⟨a0, a1, a2⟩
    have hback : walk (setCell room.board 6 0 (some Role.X)) Role.X 0 (-1) 10 (6 + 0) (0 + -1) = [] := by
      simp [walk, walkCond]
    have hhor : ¬ 4 ≤ (axisCells (setCell room.board 6 0 (some Role.X)) 6 0 Role.X
        ((0, 1), (0, -1))).length := by
      rw [axisCells_length]
      simp only [hback, List.length_nil]
      omega
    have hver : axisCells (setCell room.board 6 0 (some Role.X)) 6 0 Role.X ((1, 0), (-1, 0))
        = [(6, 0), (7, 0), (8, 0), (9, 0)] := by
      simp [axisCells, walk, walkCond, c7, c8, c9, c5]
    have : checkWin (setCell room.board 6 0 (some Role.X)) 6 0 Role.X
        = some [(6, 0), (7, 0), (8, 0), (9, 0)] := by
      unfold checkWin directions
      rw [checkWinLoop, if_neg hhor, checkWinLoop, hver]
      simp
    rw [this] at hcells
    exact (Option.some.inj hcells).symm


theorem otherRole_ne (r : Role) : otherRole r ≠ r := by
  cases r <;> simp [otherRole]

theorem makeMove_nonTerminal (st : Server) (sid : SocketId) (roomId : RoomId) (col : Int)
    (h : AcceptedNonTerminal st sid roomId col) :
    ∃ room row, mapGet st.rooms roomId = some room ∧ room.gameOver = false ∧
      mapGet room.playerRoles sid = some room.currentPlayer ∧
      makeMove st sid roomId col =
        ({ st with
            rooms := mapSet st.rooms roomId
              { room with board := setCell room.board row col (some room.currentPlayer),
                          currentPlayer := otherRole room.currentPlayer } },
          [Emit.toRoom roomId (Payload.moveMade row col (some room.currentPlayer)
            (otherRole room.currentPlayer)
            (setCell room.board row col (some room.currentPlayer)))]) := by
  obtain ⟨room, row, hroom, hover, hturn, hf, hw, hb⟩ := h
  refine ⟨room, row, hroom, hover, hturn, ?_⟩
  rw [makeMove_eq st sid roomId col room hroom,
    makeMoveRoom_next room sid roomId col row hover hturn hf hw hb]

theorem runMoves_turn (roomId : RoomId) :
    ∀ (moves : List (SocketId × Int)) (st : Server) (room : Room),
      mapGet st.rooms roomId = some room → NonTerminalRun roomId st moves →
      roomTurn (runMoves roomId st moves) roomId =
        some (otherRole^[moves.length] room.currentPlayer) := by
  intro moves
  induction moves with
  | nil =>
    intro st room hroom _
    simp [runMoves, roomTurn, hroom]
  | cons m rest ih =>
    intro st room hroom hrun
    obtain ⟨hacc, hrest⟩ := hrun
    obtain ⟨room0, row, hroom0, _, _, hmove⟩ := makeMove_nonTerminal st m.1 roomId m.2 hacc
    rw [hroom] at hroom0
    cases hroom0
    have hget : mapGet (makeMove st m.1 roomId m.2).1.rooms roomId =
        some { room with board := setCell room.board row m.2 (some room.currentPlayer),
                         currentPlayer := otherRole room.currentPlayer } := by
      rw [hmove]; exact mapGet_mapSet_self _ _ _
    have := ih _ _ hget hrest
    simp only [runMoves, List.length_cons, Function.iterate_succ_apply]
    exact this

theorem NonTerminalRun_take (roomId : RoomId) :
    ∀ (moves : List (SocketId × Int)) (st : Server) (n : Nat),
      NonTerminalRun roomId st moves → NonTerminalRun roomId st (moves.take n) := by
  intro moves
  induction moves with
  | nil => intro st n h; simpa using h
  | cons m rest ih =>
    intro st n h
    cases n with
    | zero => simp [NonTerminalRun]
    | succ n =>
      simp only [List.take_succ_cons, NonTerminalRun]
      exact ⟨h.1, ih _ n h.2⟩

/-- C7: after an accepted move that ends the game neither by a win nor by a draw, the current
turn is the role opposite to the mover's and the `moveMade` broadcast carries the mover's role
as `player` and the opposite role as `currentPlayer`; along any run of such moves the turn
after `n` moves is the initial turn flipped `n` times. -/
theorem makeMove_alternates (st : Server) (roomId : RoomId) (sid : SocketId) (col : Int)
    (rest : List (SocketId × Int))
    (h : NonTerminalRun roomId st ((sid, col) :: rest)) :
    ∃ room role row room1, mapGet st.rooms roomId = some room ∧
      mapGet room.playerRoles sid = some role ∧
      mapGet (makeMove st sid roomId col).1.rooms roomId = some room1 ∧
      room1.currentPlayer = otherRole role ∧ otherRole role ≠ role ∧
      (makeMove st sid roomId col).2 =
        [Emit.toRoom roomId
          (Payload.moveMade row col (some role) (otherRole role) room1.board)] ∧
      ∀ n, n ≤ rest.length + 1 →
        roomTurn (runMoves roomId st (((sid, col) :: rest).take n)) roomId =
          some (otherRole^[n] room.currentPlayer) := by
  obtain ⟨room, row, hroom, _, hturn, hmove⟩ := makeMove_nonTerminal st sid roomId col h.1
  refine ⟨room, room.currentPlayer, row,
    { room with board := setCell room.board row col (some room.currentPlayer),
                currentPlayer := otherRole room.currentPlayer },
    hroom, hturn, ?_, rfl, otherRole_ne _, ?_, ?_⟩
  · rw [hmove]
    exact mapGet_mapSet_self _ _ _
  · rw [hmove]
  · intro n hn
    have := runMoves_turn roomId (((sid, col) :: rest).take n) st room hroom
      (NonTerminalRun_take roomId _ st n h)
    rw [this]
    congr 2
    simp only [List.length_take, List.length_cons]
    omega

/-- C8 (amended): on an existing room whose game is not over, a move by a socket whose role is
not the current turn sends the `not your turn` error to that socket only and leaves the
server state unchanged. -/
theorem makeMove_not_your_turn (st : Server) (sid : SocketId) (roomId : RoomId) (col : Int)
    (room : Room) (hroom : mapGet st.rooms roomId = some room)
    (hover : room.gameOver = false)
    (hturn : mapGet room.playerRoles sid ≠ some room.currentPlayer) :
    makeMove st sid roomId col = (st, [Emit.toSocket sid (Payload.error errNotYourTurn)]) := by
  rw [makeMove_eq st sid roomId col room hroom,
    makeMoveRoom_notTurn room sid roomId col hover hturn]
  simp only [mapSet_of_mapGet st.rooms roomId room hroom]

/-- C9: right after a socket's accepted non-terminal move, a second move by the same socket,
into any column, is answered with the `not your turn` error and changes nothing. -/
theorem makeMove_twice_rejected (st : Server) (sid : SocketId) (roomId : RoomId)
    (col col2 : Int) (h : AcceptedNonTerminal st sid roomId col) :
    makeMove (makeMove st sid roomId col).1 sid roomId col2 =
      ((makeMove st sid roomId col).1, [Emit.toSocket sid (Payload.error errNotYourTurn)]) := by
  obtain ⟨room, row, hroom, hover, hturn, hmove⟩ := makeMove_nonTerminal st sid roomId col h
  have hget : mapGet (makeMove st sid roomId col).1.rooms roomId =
      some { room with board := setCell room.board row col (some room.currentPlayer),
                       currentPlayer := otherRole room.currentPlayer } := by
    rw [hmove]; exact mapGet_mapSet_self _ _ _
  have hnt := makeMoveRoom_notTurn
    { room with board := setCell room.board row col (some room.currentPlayer),
                currentPlayer := otherRole room.currentPlayer } sid roomId col2 hover
    (by
      simp only [hturn, ne_eq, Option.some.injEq]
      exact fun e => otherRole_ne _ e.symm)
  rw [makeMove_eq _ sid roomId col2 _ hget, hnt]
  simp only [mapSet_of_mapGet _ roomId _ hget]


/-! ## Effect of one event on a registered room -/

theorem disconnectLoop_rooms (st : Server) (sid : SocketId) :
    ∀ todo : List RoomId,
      (disconnectLoop st sid todo).1 = st ∨
        ∃ rid room, mapGet st.rooms rid = some room ∧
          ((disconnectLoop st sid todo).1.rooms =
              mapSet st.rooms rid
                { room with players := room.players.filter (fun id => decide (id ≠ sid)) } ∨
            (disconnectLoop st sid todo).1.rooms = mapDelete st.rooms rid) := by
  intro todo
  induction todo with
  | nil => left; rfl
  | cons rid rest ih =>
    unfold disconnectLoop
    cases hget : mapGet st.rooms rid with
    | none => simpa using ih
    | some room =>
      simp only
      split
      · right
        refine ⟨rid, room, hget, ?_⟩
        split
        · left; rfl
        · split
          · right; rfl
          · left; rfl
      · exact ih

theorem step_room (st : Server) (e : Event) (roomId : RoomId) (room1 : Room)
    (hres : e.isResetOf roomId = false)
    (h1 : mapGet (step st e).1.rooms roomId = some room1) :
    ∃ room, mapGet st.rooms roomId = some room ∧
      ((room1.board = room.board ∧ room1.currentPlayer = room.currentPlayer ∧
          room1.gameOver = room.gameOver) ∨
        ∃ sid col, e = Event.makeMove sid roomId col ∧
          room1 = (makeMoveRoom room sid roomId col).1) := by
  cases e with
  | createRoom sid rid =>
    have hne : roomId ≠ rid := by
      intro h; subst h; simp [Event.isResetOf] at hres
    simp only [step, createRoom] at h1
    rw [mapGet_mapSet_ne _ _ _ _ hne] at h1
    exact ⟨room1, h1, Or.inl ⟨rfl, rfl, rfl⟩⟩
  | joinRoom sid rid =>
    simp only [step, joinRoom] at h1
    cases hget : mapGet st.rooms rid with
    | none =>
      simp only [hget] at h1
      exact ⟨room1, h1, Or.inl ⟨rfl, rfl, rfl⟩⟩
    | some room =>
      simp only [hget] at h1
      split at h1
      · exact ⟨room1, h1, Or.inl ⟨rfl, rfl, rfl⟩⟩
      · by_cases hne : roomId = rid
        · subst hne
          simp only [mapGet_mapSet_self, Option.some.injEq] at h1
          subst h1
          exact ⟨room, hget, Or.inl ⟨rfl, rfl, rfl⟩⟩
        · simp only [mapGet_mapSet_ne _ _ _ _ hne] at h1
          exact ⟨room1, h1, Or.inl ⟨rfl, rfl, rfl⟩⟩
  | makeMove sid rid col =>
    simp only [step, makeMove] at h1
    cases hget : mapGet st.rooms rid with
    | none =>
      simp only [hget] at h1
      exact ⟨room1, h1, Or.inl ⟨rfl, rfl, rfl⟩⟩
    | some room =>
      simp only [hget] at h1
      by_cases hne : roomId = rid
      · subst hne
        simp only [mapGet_mapSet_self, Option.some.injEq] at h1
        exact ⟨room, hget, Or.inr ⟨sid, col, rfl, h1.symm⟩⟩
      · simp only [mapGet_mapSet_ne _ _ _ _ hne] at h1
        exact ⟨room1, h1, Or.inl ⟨rfl, rfl, rfl⟩⟩
  | resetGame sid rid =>
    have hne : roomId ≠ rid := by
      intro h; subst h; simp [Event.isResetOf] at hres
    simp only [step, resetGame] at h1
    cases hget : mapGet st.rooms rid with
    | none =>
      simp only [hget] at h1
      exact ⟨room1, h1, Or.inl ⟨rfl, rfl, rfl⟩⟩
    | some room =>
      simp only [hget, mapGet_mapSet_ne _ _ _ _ hne] at h1
      exact ⟨room1, h1, Or.inl ⟨rfl, rfl, rfl⟩⟩
  | disconnect sid =>
    simp only [step, disconnect] at h1
    rcases disconnectLoop_rooms st sid (st.rooms.map Prod.fst) with h | ⟨rid, room, hget, h | h⟩
    · rw [h] at h1
      exact ⟨room1, h1, Or.inl ⟨rfl, rfl, rfl⟩⟩
    · rw [h] at h1
      by_cases hne : roomId = rid
      · subst hne
        simp only [mapGet_mapSet_self, Option.some.injEq] at h1
        subst h1
        exact ⟨room, hget, Or.inl ⟨rfl, rfl, rfl⟩⟩
      · simp only [mapGet_mapSet_ne _ _ _ _ hne] at h1
        exact ⟨room1, h1, Or.inl ⟨rfl, rfl, rfl⟩⟩
    · rw [h] at h1
      by_cases hne : roomId = rid
      · subst hne
        rw [mapGet_mapDelete_self] at h1
        cases h1
      · rw [mapGet_mapDelete_ne _ _ _ hne] at h1
        exact ⟨room1, h1, Or.inl ⟨rfl, rfl, rfl⟩⟩
  | timerExpired rid =>
    simp only [step, timerExpired] at h1
    split at h1
    · by_cases hne : roomId = rid
      · subst hne
        simp only [mapGet_mapDelete_self] at h1
        cases h1
      · simp only [mapGet_mapDelete_ne _ _ _ hne] at h1
        exact ⟨room1, h1, Or.inl ⟨rfl, rfl, rfl⟩⟩
    · exact ⟨room1, h1, Or.inl ⟨rfl, rfl, rfl⟩⟩

theorem cellAt_emptyBoard (r c : Nat) (hr : r < 10) (hc : c < 10) :
    cellAt emptyBoard r c = some none := by
  rw [cellAt_eq_some_iff]
  refine ⟨by omega, by omega, List.replicate 10 none, ?_, ?_⟩
  · show (List.replicate 10 (List.replicate 10 (none : Cell)))[(r : Int).toNat]? = _
    rw [Int.toNat_ofNat, List.getElem?_replicate, if_pos hr]
  · rw [Int.toNat_ofNat, List.getElem?_replicate, if_pos hc]

/-- C10: once `gameOver` is true, every `makeMove` on the room leaves the server state
unchanged and emits nothing; an event after which the room is registered with a false flag is
a `resetGame` on it (a `createRoom` whose generated identifier is the room's registers another
room and is set aside); and `resetGame` yields an all-empty board, turn X and a false flag. -/
theorem gameOver_blocks_until_reset (st : Server) (roomId : RoomId) (room : Room)
    (hroom : mapGet st.rooms roomId = some room) (hover : room.gameOver = true) :
    (∀ sid col, makeMove st sid roomId col = (st, [])) ∧
    (∀ e room1, (∀ sid, e ≠ Event.createRoom sid roomId) →
      mapGet (step st e).1.rooms roomId = some room1 → room1.gameOver = false →
      ∃ sid, e = Event.resetGame sid roomId) ∧
    (∀ sid, ∃ room1, mapGet (step st (Event.resetGame sid roomId)).1.rooms roomId = some room1 ∧
      room1.board = emptyBoard ∧ room1.currentPlayer = Role.X ∧ room1.gameOver = false ∧
      room1.players = room.players ∧ room1.playerRoles = room.playerRoles ∧
      emptyBoard.WF ∧ ∀ r c : Nat, r < 10 → c < 10 → cellAt emptyBoard r c = some none) := by
  refine ⟨?_, ?_, ?_⟩
  · intro sid col
    rw [makeMove_eq st sid roomId col room hroom, makeMoveRoom_over room sid roomId col hover]
    simp only [mapSet_of_mapGet st.rooms roomId room hroom]
  · intro e room1 hfresh h1 hfalse
    by_cases hres : e.isResetOf roomId = true
    · cases e with
      | resetGame sid rid =>
        simp only [Event.isResetOf, decide_eq_true_eq] at hres
        exact ⟨sid, by rw [hres]⟩
      | createRoom sid rid =>
        simp only [Event.isResetOf, decide_eq_true_eq] at hres
        exact absurd (by rw [hres]) (hfresh sid)
      | joinRoom _ _ => simp [Event.isResetOf] at hres
      | makeMove _ _ _ => simp [Event.isResetOf] at hres
      | disconnect _ => simp [Event.isResetOf] at hres
      | timerExpired _ => simp [Event.isResetOf] at hres
    · exfalso
      obtain ⟨room0, hroom0, hcase⟩ := step_room st e roomId room1 (by simpa using hres) h1
      rw [hroom] at hroom0
      cases hroom0
      rcases hcase with ⟨_, _, hg⟩ | ⟨sid, col, _, hm⟩
      · rw [hg, hover] at hfalse; cases hfalse
      · rw [hm, makeMoveRoom_over room sid roomId col hover, hover] at hfalse; cases hfalse
  · intro sid
    refine ⟨resetRoom room, ?_, rfl, rfl, rfl, rfl, rfl, by decide, ?_⟩
    · simp only [step, resetGame, hroom]
      exact mapGet_mapSet_self _ _ _
    · intro r c hr hc
      exact cellAt_emptyBoard r c hr hc


/-! ## Filling a column -/

theorem makeMoveRoom_board_cases (room : Room) (sid : SocketId) (roomId : RoomId) (col : Int) :
    (makeMoveRoom room sid roomId col).1.board = room.board ∨
      ∃ row, findRow room.board col = some row ∧
        (makeMoveRoom room sid roomId col).1.board =
          setCell room.board row col (some room.currentPlayer) := by
  cases hover : room.gameOver with
  | true => left; rw [makeMoveRoom_over room sid roomId col hover]
  | false =>
    by_cases hturn : mapGet room.playerRoles sid = some room.currentPlayer
    · cases hf : findRow room.board col with
      | none => left; rw [makeMoveRoom_full room sid roomId col hover hturn hf]
      | some row =>
        right
        exact ⟨row, rfl, makeMoveRoom_board room sid roomId col row hover hturn hf⟩
    · left; rw [makeMoveRoom_notTurn room sid roomId col hover hturn]

theorem step_column (st : Server) (e : Event) (roomId : RoomId) (col : Int) (room1 : Room)
    (hres : e.isResetOf roomId = false)
    (h1 : mapGet (step st e).1.rooms roomId = some room1) :
    ∃ room, mapGet st.rooms roomId = some room ∧
      ((∀ r : Nat, cellAt room1.board r col = cellAt room.board r col) ∨
        ∃ row, findRow room.board col = some row ∧
          room1.board = setCell room.board row col (some room.currentPlayer)) := by
  obtain ⟨room, hroom, hcase⟩ := step_room st e roomId room1 hres h1
  refine ⟨room, hroom, ?_⟩
  rcases hcase with ⟨hb, _, _⟩ | ⟨sid, col1, _, hm⟩
  · left; intro r; rw [hb]
  · rcases makeMoveRoom_board_cases room sid roomId col1 with hb | ⟨row, hf, hb⟩
    · left; intro r; rw [hm, hb]
    · by_cases hc : col1 = col
      · subst hc
        right
        exact ⟨row, hf, by rw [hm, hb]⟩
      · left
        intro r
        rw [hm, hb]
        exact cellAt_setCell_ne _ _ _ _ _ _ (findRow_some _ _ _ hf).2.1
          (fun h => hc h.2.symm)

theorem filter_range_singleton (p : Nat → Bool) (row : Nat) :
    ∀ n : Nat, row < n → (∀ r : Nat, r < n → (p r = true ↔ r = row)) →
      (List.range n).filter p = [row] := by
  intro n
  induction n with
  | zero => intro h; omega
  | succ n ih =>
    intro hrow hp
    rw [List.range_succ, List.filter_append]
    by_cases hn : row = n
    · subst hn
      have h1 : (List.range row).filter p = [] := by
        rw [List.filter_eq_nil_iff]
        intro r hr
        rw [List.mem_range] at hr
        rw [hp r (by omega)]
        omega
      have h2 : p row = true := (hp row (by omega)).2 rfl
      simp [h1, List.filter_cons, h2]
    · have h1 := ih (by omega) (fun r hr => hp r (by omega))
      have h2 : ¬ p n = true := by
        rw [hp n (by omega)]
        omega
      simp [h1, List.filter_cons, h2]

theorem newlyFilled_same (b b1 : Board) (col : Int)
    (h : ∀ r : Nat, cellAt b1 r col = cellAt b r col) : newlyFilled b b1 col = [] := by
  unfold newlyFilled
  rw [List.filter_eq_nil_iff]
  intro r _
  simp [h r]

theorem emptyRows_same (b b1 : Board) (col : Int)
    (h : ∀ r : Nat, cellAt b1 r col = cellAt b r col) : emptyRows b1 col = emptyRows b col := by
  unfold emptyRows
  apply List.filter_congr
  intro r _
  rw [h r]

theorem newlyFilled_setCell (b : Board) (col : Int) (row : Nat) (v : Role)
    (hf : findRow b col = some row) :
    newlyFilled b (setCell b row col (some v)) col = [row] := by
  obtain ⟨hlt, hcol, hnull, _⟩ := findRow_some b col row hf
  unfold newlyFilled
  apply filter_range_singleton _ row 10 hlt
  intro r _
  by_cases hr : r = row
  · subst hr
    simp [hnull, cellAt_setCell_self b r col (some v) (by rw [hnull]; simp)]
  · have : cellAt (setCell b row col (some v)) r col = cellAt b r col :=
      cellAt_setCell_ne b row col _ r col hcol (fun h => hr (by omega))
    simp [this, hr]

theorem emptyRows_setCell (b : Board) (col : Int) (row : Nat) (v : Role)
    (hf : findRow b col = some row) :
    (emptyRows b col).length = (emptyRows (setCell b row col (some v)) col).length + 1 := by
  obtain ⟨hlt, hcol, hnull, _⟩ := findRow_some b col row hf
  have hself := cellAt_setCell_self b row col (some v) (by rw [hnull]; simp)
  have hne : ∀ r : Nat, r ≠ row → cellAt (setCell b row col (some v)) r col = cellAt b r col :=
    fun r hr => cellAt_setCell_ne b row col _ r col hcol (fun h => hr (by omega))
  unfold emptyRows
  have key : ∀ n : Nat,
      ((List.range n).filter (fun r : Nat => decide (cellAt b r col = some none))).length =
        ((List.range n).filter
          (fun r : Nat => decide (cellAt (setCell b row col (some v)) r col = some none))).length
          + (if row < n then 1 else 0) := by
    intro n
    induction n with
    | zero => simp
    | succ n ih =>
      rw [List.range_succ, List.filter_append, List.filter_append, List.length_append,
        List.length_append, ih]
      by_cases hn : n = row
      · subst hn
        simp [List.filter_cons, hnull, hself]
      · have e1 : List.filter
              (fun r : Nat => decide (cellAt (setCell b row col (some v)) r col = some none)) [n]
            = List.filter (fun r : Nat => decide (cellAt b r col = some none)) [n] := by
          simp [List.filter_cons, hne n hn]
        have e2 : (if row < n + 1 then 1 else 0) = (if row < n then 1 else 0) := by
          split_ifs <;> omega
        rw [e1, e2]
        omega
  rw [key 10, if_pos hlt]

theorem freeCells_le (roomId : RoomId) (col : Int) (st : Server) :
    freeCells roomId col st ≤ 10 := by
  unfold freeCells
  split
  · omega
  · unfold emptyRows
    exact (List.length_filter_le _ _).trans (by simp)

theorem placedBy_none (roomId : RoomId) (col : Int) (st : Server) (e : Event)
    (h : mapGet (step st e).1.rooms roomId = none) : placedBy roomId col st e = [] := by
  unfold placedBy
  rw [h]
  cases mapGet st.rooms roomId <;> rfl

theorem placedBy_some (roomId : RoomId) (col : Int) (st : Server) (e : Event)
    (room room1 : Room) (h0 : mapGet st.rooms roomId = some room)
    (h1 : mapGet (step st e).1.rooms roomId = some room1) :
    placedBy roomId col st e = newlyFilled room.board room1.board col := by
  unfold placedBy
  rw [h0, h1]

theorem step_freeCells (roomId : RoomId) (col : Int) (st : Server) (e : Event)
    (hres : e.isResetOf roomId = false) :
    freeCells roomId col (step st e).1 + (placedBy roomId col st e).length
      ≤ freeCells roomId col st := by
  cases h1 : mapGet (step st e).1.rooms roomId with
  | none =>
    rw [placedBy_none roomId col st e h1]
    simp [freeCells, h1]
  | some room1 =>
    obtain ⟨room, hroom, hcase⟩ := step_column st e roomId col room1 hres h1
    rw [placedBy_some roomId col st e room room1 hroom h1]
    simp only [freeCells, h1, hroom]
    rcases hcase with hsame | ⟨row, hf, hb⟩
    · rw [newlyFilled_same _ _ _ hsame, emptyRows_same _ _ _ hsame]
      simp
    · rw [hb, newlyFilled_setCell _ _ _ _ hf, emptyRows_setCell _ _ _ room.currentPlayer hf]
      simp

theorem run_freeCells (roomId : RoomId) (col : Int) :
    ∀ (evs : List Event) (st : Server), (∀ e ∈ evs, e.isResetOf roomId = false) →
      freeCells roomId col (run st evs) + (placedRows roomId col st evs).length
        ≤ freeCells roomId col st := by
  intro evs
  induction evs with
  | nil => intro st _; simp [run, placedRows]
  | cons e es ih =>
    intro st h
    have h1 := step_freeCells roomId col st e (h e (by simp))
    have h2 := ih (step st e).1 (fun e' he' => h e' (by simp [he']))
    simp only [run, placedRows, List.length_append]
    omega


theorem step_shape (roomId : RoomId) (col : Int) (n : Nat) (st : Server) (e : Event)
    (hres : e.isResetOf roomId = false) (hn : n ≤ 10)
    (hshape : ColumnShape roomId col n st) :
    (placedBy roomId col st e = [] ∧ ColumnShape roomId col n (step st e).1) ∨
      ∃ m, n = m + 1 ∧ placedBy roomId col st e = [m] ∧
        ColumnShape roomId col m (step st e).1 := by
  cases h1 : mapGet (step st e).1.rooms roomId with
  | none =>
    left
    refine ⟨placedBy_none roomId col st e h1, ?_⟩
    intro room hr
    rw [h1] at hr
    cases hr
  | some room1 =>
    obtain ⟨room, hroom, hcase⟩ := step_column st e roomId col room1 hres h1
    rw [placedBy_some roomId col st e room room1 hroom h1]
    rcases hcase with hsame | ⟨row, hf, hb⟩
    · left
      refine ⟨newlyFilled_same _ _ _ hsame, ?_⟩
      intro room' hr r hr10
      rw [h1] at hr
      cases hr
      rw [hsame r]
      exact hshape room hroom r hr10
    · right
      obtain ⟨hlt, hcol, hnull, habove⟩ := findRow_some room.board col row hf
      have h1n : row < n := (hshape room hroom row hlt).1 hnull
      have h2n : n ≤ row + 1 := by
        by_contra hcon
        have hlt2 : row + 1 < n := by omega
        exact habove (row + 1) (by omega) (by omega)
          ((hshape room hroom (row + 1) (by omega)).2 hlt2)
      refine ⟨row, by omega, ?_, ?_⟩
      · rw [hb]; exact newlyFilled_setCell _ _ _ _ hf
      · intro room' hr r hr10
        rw [h1] at hr
        cases hr
        rw [hb]
        by_cases hrr : r = row
        · subst hrr
          rw [cellAt_setCell_self room.board r col _ (by rw [hnull]; simp)]
          simp
        · rw [cellAt_setCell_ne room.board row col _ r col hcol (fun h => hrr (by omega)),
            hshape room hroom r hr10]
          omega

theorem run_shape (roomId : RoomId) (col : Int) :
    ∀ (evs : List Event) (st : Server) (n : Nat), n ≤ 10 → ColumnShape roomId col n st →
      (∀ e ∈ evs, e.isResetOf roomId = false) →
      placedRows roomId col st evs <+: descFrom n := by
  intro evs
  induction evs with
  | nil => intro st n _ _ _; simp [placedRows]
  | cons e es ih =>
    intro st n hn hshape h
    have hes : ∀ e' ∈ es, e'.isResetOf roomId = false := fun e' he' => h e' (by simp [he'])
    rcases step_shape roomId col n st e (h e (by simp)) hn hshape with
      ⟨hp, hs⟩ | ⟨m, hm, hp, hs⟩
    · simp only [placedRows, hp, List.nil_append]
      exact ih _ n hn hs hes
    · subst hm
      simp only [placedRows, hp, List.singleton_append, descFrom]
      rw [List.cons_prefix_cons]
      exact ⟨rfl, ih _ m (by omega) hs hes⟩

theorem makeMove_noop_of_full (st : Server) (sid : SocketId) (roomId : RoomId) (col : Int)
    (h : freeCells roomId col st = 0) :
    (makeMove st sid roomId col).1 = st ∧
      ∀ rid p, Emit.toRoom rid p ∉ (makeMove st sid roomId col).2 := by
  cases hroom : mapGet st.rooms roomId with
  | none => simp [makeMove, hroom]
  | some room =>
    have hfull : findRow room.board col = none := by
      apply (findRowFrom_none room.board col 10).2
      intro r hr hc
      simp only [freeCells, hroom, emptyRows, List.length_eq_zero, List.filter_eq_nil_iff] at h
      exact h r (List.mem_range.2 hr) (by simpa using hc)
    rw [makeMove_eq st sid roomId col room hroom]
    cases hover : room.gameOver with
    | true =>
      rw [makeMoveRoom_over room sid roomId col hover]
      simp [mapSet_of_mapGet st.rooms roomId room hroom]
    | false =>
      by_cases hturn : mapGet room.playerRoles sid = some room.currentPlayer
      · rw [makeMoveRoom_full room sid roomId col hover hturn hfull]
        simp [mapSet_of_mapGet st.rooms roomId room hroom]
      · rw [makeMoveRoom_notTurn room sid roomId col hover hturn]
        simp [mapSet_of_mapGet st.rooms roomId room hroom]

/-- C6: along any run of events none of which re-initialises the room's board, at most 10
events place a marker in a given column; from an empty column the rows of the placements are
9, 8, .., 0 in this order; and once 10 markers have been placed, a move into the column
changes nothing and broadcasts nothing to the room. -/
theorem column_capacity (st : Server) (roomId : RoomId) (col : Int) (evs : List Event)
    (hnoreset : ∀ e ∈ evs, e.isResetOf roomId = false) :
    (placedRows roomId col st evs).length ≤ 10 ∧
    ((∀ room, mapGet st.rooms roomId = some room →
        ∀ r : Nat, r < 10 → cellAt room.board r col = some none) →
      placedRows roomId col st evs <+: [9, 8, 7, 6, 5, 4, 3, 2, 1, 0]) ∧
    ((placedRows roomId col st evs).length = 10 →
      ∀ sid, (makeMove (run st evs) sid roomId col).1 = run st evs ∧
        ∀ rid p, Emit.toRoom rid p ∉ (makeMove (run st evs) sid roomId col).2) := by
  have hpot := run_freeCells roomId col evs st hnoreset
  have hle := freeCells_le roomId col st
  refine ⟨by omega, ?_, ?_⟩
  · intro hempty
    have hshape : ColumnShape roomId col 10 st := by
      intro room hroom r hr
      simp [hempty room hroom r hr, hr]
    exact run_shape roomId col evs st 10 (le_refl _) hshape hnoreset
  · intro hten sid
    exact makeMove_noop_of_full (run st evs) sid roomId col (by omega)


/-! ## `resetGame` and the outcome of a placement -/

theorem resetGame_eq (st : Server) (roomId : RoomId) (room : Room)
    (h : mapGet st.rooms roomId = some room) :
    resetGame st roomId =
      ({ st with rooms := mapSet st.rooms roomId (resetRoom room) },
        [Emit.toRoom roomId (Payload.gameReset emptyBoard Role.X)]) := by
  simp only [resetGame, h]

/-- C11: on a registered room `resetGame` yields the all-empty 10x10 board, turn X and a false
`gameOver` flag, keeps players and roles, and a second `resetGame` changes nothing more; on an
identifier that is not registered it changes nothing and emits nothing. -/
theorem resetGame_idempotent (st : Server) (roomId : RoomId) :
    (∀ room, mapGet st.rooms roomId = some room →
      ∃ room1, mapGet (resetGame st roomId).1.rooms roomId = some room1 ∧
        room1.board = emptyBoard ∧ emptyBoard.WF ∧
        (∀ r c : Nat, r < 10 → c < 10 → cellAt room1.board r c = some none) ∧
        room1.currentPlayer = Role.X ∧ room1.gameOver = false ∧
        room1.players = room.players ∧ room1.playerRoles = room.playerRoles ∧
        (resetGame (resetGame st roomId).1 roomId).1 = (resetGame st roomId).1) ∧
      (mapGet st.rooms roomId = none → resetGame st roomId = (st, [])) := by
  constructor
  · intro room hroom
    have hget : mapGet (resetGame st roomId).1.rooms roomId = some (resetRoom room) := by
      rw [resetGame_eq st roomId room hroom]
      exact mapGet_mapSet_self _ _ _
    refine ⟨resetRoom room, hget, rfl, by decide, ?_, rfl, rfl, rfl, rfl, ?_⟩
    · intro r c hr hc
      exact cellAt_emptyBoard r c hr hc
    · rw [resetGame_eq (resetGame st roomId).1 roomId (resetRoom room) hget]
      have h3 : resetRoom (resetRoom room) = resetRoom room := rfl
      simp only [h3, mapSet_of_mapGet _ roomId _ hget]
  · intro hnone
    simp only [resetGame, hnone]

theorem makeMoveRoom_draw (room : Room) (sid : SocketId) (roomId : RoomId) (col : Int)
    (row : Nat) (h : room.gameOver = false)
    (ht : mapGet room.playerRoles sid = some room.currentPlayer)
    (hf : findRow room.board col = some row)
    (hw : checkWin (setCell room.board row col (some room.currentPlayer)) row col
      room.currentPlayer = none)
    (hb : isBoardFull (setCell room.board row col (some room.currentPlayer)) = true) :
    makeMoveRoom room sid roomId col =
      ({ room with board := setCell room.board row col (some room.currentPlayer),
                   gameOver := true },
        [Emit.toRoom roomId (Payload.gameOver none none
          (setCell room.board row col (some room.currentPlayer)))]) := by
  simp [makeMoveRoom, h, ht, hf, hw, hb]

theorem isBoardFull_iff (board : Board) :
    isBoardFull board = true ↔ ∀ row ∈ board, ∀ cell ∈ row, cell ≠ none := by
  simp [isBoardFull, List.all_eq_true]

/-- C12: an accepted placement broadcasts exactly one room-wide event: `gameOver` with the
mover's role and the winning cells when `checkWin` at the placed cell is non-null (even if the
board is full as well); else `gameOver` with a null winner when every cell is non-empty; else
`moveMade`, the flag staying false. On both terminal outcomes the turn is unchanged. -/
theorem makeMove_outcome (st : Server) (sid : SocketId) (roomId : RoomId) (col : Int)
    (room : Room) (row : Nat) (hroom : mapGet st.rooms roomId = some room)
    (hover : room.gameOver = false)
    (hturn : mapGet room.playerRoles sid = some room.currentPlayer)
    (hrow : findRow room.board col = some row) :
    (∀ cells,
      checkWin (setCell room.board row col (some room.currentPlayer)) row col
        room.currentPlayer = some cells →
      makeMove st sid roomId col =
        ({ st with
            rooms := mapSet st.rooms roomId
              { room with board := setCell room.board row col (some room.currentPlayer),
                          gameOver := true } },
          [Emit.toRoom roomId (Payload.gameOver (mapGet room.playerRoles sid) (some cells)
            (setCell room.board row col (some room.currentPlayer)))])) ∧
    (checkWin (setCell room.board row col (some room.currentPlayer)) row col
        room.currentPlayer = none →
      (∀ r ∈ setCell room.board row col (some room.currentPlayer), ∀ cell ∈ r, cell ≠ none) →
      makeMove st sid roomId col =
        ({ st with
            rooms := mapSet st.rooms roomId
              { room with board := setCell room.board row col (some room.currentPlayer),
                          gameOver := true } },
          [Emit.toRoom roomId (Payload.gameOver none none
            (setCell room.board row col (some room.currentPlayer)))])) ∧
    (checkWin (setCell room.board row col (some room.currentPlayer)) row col
        room.currentPlayer = none →
      ¬ (∀ r ∈ setCell room.board row col (some room.currentPlayer), ∀ cell ∈ r, cell ≠ none) →
      makeMove st sid roomId col =
        ({ st with
            rooms := mapSet st.rooms roomId
              { room with board := setCell room.board row col (some room.currentPlayer),
                          currentPlayer := otherRole room.currentPlayer,
                          gameOver := false } },
          [Emit.toRoom roomId (Payload.moveMade row col (mapGet room.playerRoles sid)
            (otherRole room.currentPlayer)
            (setCell room.board row col (some room.currentPlayer)))])) := by
  refine ⟨?_, ?_, ?_⟩
  · intro cells hw
    rw [makeMove_eq st sid roomId col room hroom,
      makeMoveRoom_win room sid roomId col row cells hover hturn hrow hw, hturn]
  · intro hw hfull
    rw [makeMove_eq st sid roomId col room hroom,
      makeMoveRoom_draw room sid roomId col row hover hturn hrow hw
        ((isBoardFull_iff _).2 hfull)]
  · intro hw hfull
    have hb : isBoardFull (setCell room.board row col (some room.currentPlayer)) = false := by
      cases h : isBoardFull (setCell room.board row col (some room.currentPlayer)) with
      | false => rfl
      | true => exact absurd ((isBoardFull_iff _).1 h) hfull
    rw [makeMove_eq st sid roomId col room hroom,
      makeMoveRoom_next room sid roomId col row hover hturn hrow hw hb, hturn, ← hover]

/-! ## Membership, timers and the `disconnect` handler -/

theorem mem_cancelRoomDeletionTimer (timers : List RoomId) (roomId t : RoomId) :
    t ∈ cancelRoomDeletionTimer timers roomId ↔ t ∈ timers ∧ t ≠ roomId := by
  simp [cancelRoomDeletionTimer]

theorem mem_setRoomDeletionTimer (timers : List RoomId) (roomId t : RoomId) :
    t ∈ setRoomDeletionTimer timers roomId ↔ t ∈ timers ∨ t = roomId := by
  unfold setRoomDeletionTimer
  split
  · rename_i h
    constructor
    · exact fun h1 => Or.inl h1
    · rintro (h1 | h1)
      · exact h1
      · rw [h1]; exact h
  · simp

theorem makeMoveRoom_cases (room : Room) (sid : SocketId) (roomId : RoomId) (col : Int) :
    (makeMoveRoom room sid roomId col).1 = room ∨
      ∃ row, findRow room.board col = some row ∧ room.gameOver = false ∧
        mapGet room.playerRoles sid = some room.currentPlayer ∧
        ((∃ cells, checkWin (setCell room.board row col (some room.currentPlayer)) row col
              room.currentPlayer = some cells ∧
            (makeMoveRoom room sid roomId col).1 =
              { room with board := setCell room.board row col (some room.currentPlayer),
                          gameOver := true }) ∨
          (checkWin (setCell room.board row col (some room.currentPlayer)) row col
              room.currentPlayer = none ∧
            isBoardFull (setCell room.board row col (some room.currentPlayer)) = true ∧
            (makeMoveRoom room sid roomId col).1 =
              { room with board := setCell room.board row col (some room.currentPlayer),
                          gameOver := true }) ∨
          (checkWin (setCell room.board row col (some room.currentPlayer)) row col
              room.currentPlayer = none ∧
            isBoardFull (setCell room.board row col (some room.currentPlayer)) = false ∧
            (makeMoveRoom room sid roomId col).1 =
              { room with board := setCell room.board row col (some room.currentPlayer),
                          currentPlayer := otherRole room.currentPlayer })) := by
  cases hover : room.gameOver with
  | true => left; rw [makeMoveRoom_over room sid roomId col hover]
  | false =>
    by_cases hturn : mapGet room.playerRoles sid = some room.currentPlayer
    · cases hf : findRow room.board col with
      | none => left; rw [makeMoveRoom_full room sid roomId col hover hturn hf]
      | some row =>
        right
        refine ⟨row, rfl, rfl, hturn, ?_⟩
        cases hw : checkWin (setCell room.board row col (some room.currentPlayer)) row col
            room.currentPlayer with
        | some cells =>
          left
          exact ⟨cells, rfl, by rw [makeMoveRoom_win room sid roomId col row cells hover hturn hf hw]⟩
        | none =>
          right
          cases hb : isBoardFull (setCell room.board row col (some room.currentPlayer)) with
          | true =>
            left
            exact ⟨rfl, rfl, by rw [makeMoveRoom_draw room sid roomId col row hover hturn hf hw hb]⟩
          | false =>
            right
            exact ⟨rfl, rfl, by
              rw [makeMoveRoom_next room sid roomId col row hover hturn hf hw hb]; simp only [hover]⟩
    · left; rw [makeMoveRoom_notTurn room sid roomId col hover hturn]

theorem makeMoveRoom_players (room : Room) (sid : SocketId) (roomId : RoomId) (col : Int) :
    (makeMoveRoom room sid roomId col).1.players = room.players ∧
      (makeMoveRoom room sid roomId col).1.playerRoles = room.playerRoles := by
  rcases makeMoveRoom_cases room sid roomId col with h | ⟨row, _, _, _, h | h | h⟩
  · rw [h]; exact ⟨rfl, rfl⟩
  · obtain ⟨_, _, h⟩ := h
    rw [h]; exact ⟨rfl, rfl⟩
  · rw [h.2.2]; exact ⟨rfl, rfl⟩
  · rw [h.2.2]; exact ⟨rfl, rfl⟩

/-- What the `disconnect` handler does to the room it finds. -/
theorem disconnectLoop_cases (st : Server) (sid : SocketId) :
    ∀ todo : List RoomId,
      (todo.find? (listsPlayer st sid) = none ∧ disconnectLoop st sid todo = (st, [])) ∨
        ∃ rid room, todo.find? (listsPlayer st sid) = some rid ∧
          mapGet st.rooms rid = some room ∧ sid ∈ room.players ∧
          disconnectLoop st sid todo =
            (if (room.players.filter (fun id => decide (id ≠ sid))).length = 1 then
              ({ rooms := mapSet st.rooms rid
                  { room with players := room.players.filter (fun id => decide (id ≠ sid)) },
                 roomTimers := setRoomDeletionTimer st.roomTimers rid },
                [Emit.toRoom rid (Payload.playerDisconnected msgDisconnected)])
            else if (room.players.filter (fun id => decide (id ≠ sid))).length = 0 then
              ({ rooms := mapDelete st.rooms rid,
                 roomTimers := cancelRoomDeletionTimer st.roomTimers rid }, [])
            else
              ({ st with
                  rooms := mapSet st.rooms rid
                    { room with players := room.players.filter (fun id => decide (id ≠ sid)) } },
                [])) := by
  intro todo
  induction todo with
  | nil => left; exact ⟨rfl, rfl⟩
  | cons rid rest ih =>
    unfold disconnectLoop
    cases hget : mapGet st.rooms rid with
    | none =>
      have hl : listsPlayer st sid rid = false := by simp [listsPlayer, hget]
      simp only [List.find?_cons, hl]
      exact ih
    | some room =>
      by_cases hin : sid ∈ room.players
      · right
        have hl : listsPlayer st sid rid = true := by simp [listsPlayer, hget, hin]
        refine ⟨rid, room, by simp [List.find?_cons, hl], hget, hin, ?_⟩
        simp only [hin, if_true]
      · have hl : listsPlayer st sid rid = false := by simp [listsPlayer, hget, hin]
        simp only [List.find?_cons, hl, hin, if_false]
        exact ih

theorem length_filter_ne_lt (l : List SocketId) (sid : SocketId) (h : sid ∈ l) :
    (l.filter (fun id => decide (id ≠ sid))).length < l.length := by
  rw [List.length_filter_lt_length_iff_exists]
  exact ⟨sid, h, by simp⟩

theorem RoomsInv_initial : RoomsInv initial := by
  constructor
  · intro rid room h; simp [initial, mapGet] at h
  · intro rid h; simp [initial] at h

theorem RoomsInv_mapSet (st : Server) (rid : RoomId) (room room1 : Room)
    (hinv : RoomsInv st) (hroom : mapGet st.rooms rid = some room)
    (hp : room1.players = room.players) :
    RoomsInv { st with rooms := mapSet st.rooms rid room1 } := by
  constructor
  · intro k r hk
    by_cases hkr : k = rid
    · subst hkr
      simp only [mapGet_mapSet_self, Option.some.injEq] at hk
      subst hk
      rw [hp]
      exact hinv.1 k room hroom
    · simp only [mapGet_mapSet_ne _ _ _ _ hkr] at hk
      exact hinv.1 k r hk
  · intro k hk
    obtain ⟨r, hr, hlen⟩ := hinv.2 k hk
    by_cases hkr : k = rid
    · subst hkr
      rw [hroom] at hr
      cases hr
      exact ⟨room1, mapGet_mapSet_self _ _ _, by rw [hp]; exact hlen⟩
    · exact ⟨r, by simp only [mapGet_mapSet_ne _ _ _ _ hkr]; exact hr, hlen⟩

theorem RoomsInv_delete (st : Server) (rid : RoomId) (hinv : RoomsInv st) :
    RoomsInv { rooms := mapDelete st.rooms rid,
               roomTimers := cancelRoomDeletionTimer st.roomTimers rid } := by
  constructor
  · intro k r hk
    by_cases hkr : k = rid
    · subst hkr
      simp only [mapGet_mapDelete_self] at hk
      cases hk
    · simp only [mapGet_mapDelete_ne _ _ _ hkr] at hk
      exact hinv.1 k r hk
  · intro k hk
    simp only [mem_cancelRoomDeletionTimer] at hk
    obtain ⟨r, hr, hlen⟩ := hinv.2 k hk.1
    exact ⟨r, by simp only [mapGet_mapDelete_ne _ _ _ hk.2]; exact hr, hlen⟩

theorem RoomsInv_step (st : Server) (e : Event) (hinv : RoomsInv st) :
    RoomsInv (step st e).1 := by
  cases e with
  | createRoom sid rid =>
    simp only [step, createRoom]
    constructor
    · intro k r hk
      by_cases hkr : k = rid
      · subst hkr
        simp only [mapGet_mapSet_self, Option.some.injEq] at hk
        subst hk
        simp
      · simp only [mapGet_mapSet_ne _ _ _ _ hkr] at hk
        exact hinv.1 k r hk
    · intro k hk
      by_cases hkr : k = rid
      · subst hkr
        exact ⟨_, mapGet_mapSet_self _ _ _, rfl⟩
      · obtain ⟨r, hr, hlen⟩ := hinv.2 k hk
        exact ⟨r, by simp only [mapGet_mapSet_ne _ _ _ _ hkr]; exact hr, hlen⟩
  | joinRoom sid rid =>
    simp only [step, joinRoom]
    cases hget : mapGet st.rooms rid with
    | none => exact hinv
    | some room =>
      simp only
      split
      · exact hinv
      · rename_i hlen
        have h1 := (hinv.1 rid room hget).1
        constructor
        · intro k r hk
          by_cases hkr : k = rid
          · subst hkr
            simp only [mapGet_mapSet_self, Option.some.injEq] at hk
            subst hk
            simp only [List.length_append, List.length_singleton]
            omega
          · simp only [mapGet_mapSet_ne _ _ _ _ hkr] at hk
            exact hinv.1 k r hk
        · intro k hk
          simp only [mem_cancelRoomDeletionTimer] at hk
          obtain ⟨r, hr, hl⟩ := hinv.2 k hk.1
          exact ⟨r, by simp only [mapGet_mapSet_ne _ _ _ _ hk.2]; exact hr, hl⟩
  | makeMove sid rid col =>
    simp only [step, makeMove]
    cases hget : mapGet st.rooms rid with
    | none => exact hinv
    | some room =>
      exact RoomsInv_mapSet st rid room _ hinv hget (makeMoveRoom_players room sid rid col).1
  | resetGame sid rid =>
    simp only [step, resetGame]
    cases hget : mapGet st.rooms rid with
    | none => exact hinv
    | some room => exact RoomsInv_mapSet st rid room _ hinv hget rfl
  | disconnect sid =>
    simp only [step, disconnect]
    rcases disconnectLoop_cases st sid (st.rooms.map Prod.fst) with
      ⟨_, h⟩ | ⟨rid, room, _, hget, hin, h⟩
    · rw [h]; exact hinv
    · rw [h]
      have hlt := length_filter_ne_lt room.players sid hin
      have hle := (hinv.1 rid room hget).2
      split
      · rename_i h1
        constructor
        · intro k r hk
          by_cases hkr : k = rid
          · subst hkr
            simp only [mapGet_mapSet_self, Option.some.injEq] at hk
            subst hk
            simp only [h1]
            omega
          · simp only [mapGet_mapSet_ne _ _ _ _ hkr] at hk
            exact hinv.1 k r hk
        · intro k hk
          simp only [mem_setRoomDeletionTimer] at hk
          by_cases hkr : k = rid
          · subst hkr
            exact ⟨_, mapGet_mapSet_self _ _ _, h1⟩
          · rcases hk with hk | hk
            · obtain ⟨r, hr, hl⟩ := hinv.2 k hk
              exact ⟨r, by simp only [mapGet_mapSet_ne _ _ _ _ hkr]; exact hr, hl⟩
            · exact absurd hk hkr
      · split
        · exact RoomsInv_delete st rid hinv
        · omega
  | timerExpired rid =>
    simp only [step, timerExpired]
    split
    · exact RoomsInv_delete st rid hinv
    · exact hinv

theorem RoomsInv_run :
    ∀ (evs : List Event) (st : Server), RoomsInv st → RoomsInv (run st evs) := by
  intro evs
  induction evs with
  | nil => intro st h; exact h
  | cons e es ih =>
    intro st h
    exact ih _ (RoomsInv_step st e h)

/-- C15: in every state reached from the empty server by any list of events, every registered
room has one or two players, and a deletion timer is armed only for an identifier that is
registered and whose room has exactly one player. -/
theorem reachable_rooms_and_timers (evs : List Event) :
    (∀ rid room, mapGet (run initial evs).rooms rid = some room →
        1 ≤ room.players.length ∧ room.players.length ≤ 2) ∧
      (∀ rid, rid ∈ (run initial evs).roomTimers →
        ∃ room, mapGet (run initial evs).rooms rid = some room ∧ room.players.length = 1) :=
  RoomsInv_run evs initial RoomsInv_initial

/-- C14: in a reachable state, `joinRoom` on an unregistered identifier or on a room with two
players only sends an error to the requester and leaves the whole state unchanged; otherwise
the requester is appended as second player with role O, the deletion timer of the room is
cancelled (the other timers are kept), and board, turn and `gameOver` flag stay as they were. -/
theorem joinRoom_outcome (evs : List Event) (sid : SocketId) (roomId : RoomId) :
    (mapGet (run initial evs).rooms roomId = none →
      joinRoom (run initial evs) sid roomId =
        (run initial evs, [Emit.toSocket sid (Payload.error errRoomNotFound)])) ∧
    (∀ room, mapGet (run initial evs).rooms roomId = some room → 2 ≤ room.players.length →
      joinRoom (run initial evs) sid roomId =
        (run initial evs, [Emit.toSocket sid (Payload.error errRoomFull)])) ∧
    (∀ room, mapGet (run initial evs).rooms roomId = some room → room.players.length < 2 →
      ∃ room1, mapGet (joinRoom (run initial evs) sid roomId).1.rooms roomId = some room1 ∧
        room1.players = room.players ++ [sid] ∧ room1.players.length = 2 ∧
        mapGet room1.playerRoles sid = some Role.O ∧
        roomId ∉ (joinRoom (run initial evs) sid roomId).1.roomTimers ∧
        (∀ t, t ≠ roomId → (t ∈ (joinRoom (run initial evs) sid roomId).1.roomTimers ↔
          t ∈ (run initial evs).roomTimers)) ∧
        room1.board = room.board ∧ room1.currentPlayer = room.currentPlayer ∧
        room1.gameOver = room.gameOver ∧
        (joinRoom (run initial evs) sid roomId).2 =
          [Emit.toSocket sid (Payload.roomJoined roomId Role.O),
           Emit.toRoom roomId (Payload.gameStart room.board room.currentPlayer 2)]) := by
  have hinv := RoomsInv_run evs initial RoomsInv_initial
  generalize run initial evs = st at hinv ⊢
  refine ⟨?_, ?_, ?_⟩
  · intro hnone
    simp only [joinRoom, hnone]
  · intro room hroom hfull
    simp only [joinRoom, hroom, hfull, if_true]
  · intro room hroom hlt
    have hone : room.players.length = 1 := by
      have := (hinv.1 roomId room hroom).1
      omega
    have hnot : ¬ 2 ≤ room.players.length := by omega
    have hj : joinRoom st sid roomId =
        ({ rooms := mapSet st.rooms roomId
              { room with players := room.players ++ [sid],
                          playerRoles := mapSet room.playerRoles sid Role.O },
           roomTimers := cancelRoomDeletionTimer st.roomTimers roomId },
          [Emit.toSocket sid (Payload.roomJoined roomId Role.O),
           Emit.toRoom roomId
            (Payload.gameStart room.board room.currentPlayer (room.players ++ [sid]).length)]) := by
      simp only [joinRoom, hroom, hnot, if_false]
    rw [hj]
    refine ⟨_, mapGet_mapSet_self _ _ _, rfl, ?_, mapGet_mapSet_self _ _ _, ?_, ?_, rfl, rfl, rfl,
      ?_⟩
    · simp [hone]
    · simp [mem_cancelRoomDeletionTimer]
    · intro t ht
      simp [mem_cancelRoomDeletionTimer, ht]
    · simp [hone]

theorem disconnect_of_roomOf (st : Server) (sid : SocketId) (roomId : RoomId) (room : Room)
    (hfind : roomOf st sid = some roomId) (hroom : mapGet st.rooms roomId = some room) :
    disconnect st sid =
      (if (room.players.filter (fun id => decide (id ≠ sid))).length = 1 then
        ({ rooms := mapSet st.rooms roomId
            { room with players := room.players.filter (fun id => decide (id ≠ sid)) },
           roomTimers := setRoomDeletionTimer st.roomTimers roomId },
          [Emit.toRoom roomId (Payload.playerDisconnected msgDisconnected)])
      else if (room.players.filter (fun id => decide (id ≠ sid))).length = 0 then
        ({ rooms := mapDelete st.rooms roomId,
           roomTimers := cancelRoomDeletionTimer st.roomTimers roomId }, [])
      else
        ({ st with
            rooms := mapSet st.rooms roomId
              { room with players := room.players.filter (fun id => decide (id ≠ sid)) } },
          [])) := by
  unfold roomOf at hfind
  rcases disconnectLoop_cases st sid (st.rooms.map Prod.fst) with
    ⟨hnone, _⟩ | ⟨rid, room0, hsome, hget, _, h⟩
  · rw [hnone] at hfind; cases hfind
  · rw [hsome] at hfind
    cases hfind
    rw [hroom] at hget
    cases hget
    exact h

/-- The effect of `disconnect` on the room the handler finds (the first registered room that
lists the socket), and of an expiring timer. -/
theorem disconnect_first_room (st : Server) (sid : SocketId) (roomId : RoomId) (room : Room)
    (hfind : roomOf st sid = some roomId) (hroom : mapGet st.rooms roomId = some room) :
    sid ∈ room.players ∧ sid ∉ room.players.filter (fun id => decide (id ≠ sid)) ∧
    ((room.players.filter (fun id => decide (id ≠ sid))).length = 1 →
      ∃ room1, mapGet (disconnect st sid).1.rooms roomId = some room1 ∧
        room1.players = room.players.filter (fun id => decide (id ≠ sid)) ∧
        room1.board = room.board ∧ room1.currentPlayer = room.currentPlayer ∧
        room1.gameOver = room.gameOver ∧
        (disconnect st sid).2 =
          [Emit.toRoom roomId (Payload.playerDisconnected msgDisconnected)] ∧
        roomId ∈ (disconnect st sid).1.roomTimers) ∧
    ((room.players.filter (fun id => decide (id ≠ sid))).length = 0 →
      mapGet (disconnect st sid).1.rooms roomId = none ∧
        roomId ∉ (disconnect st sid).1.roomTimers ∧ (disconnect st sid).2 = []) ∧
    (∀ (st2 : Server) (rid : RoomId), rid ∈ st2.roomTimers →
      mapGet (timerExpired st2 rid).1.rooms rid = none ∧
        rid ∉ (timerExpired st2 rid).1.roomTimers) := by
  have hd := disconnect_of_roomOf st sid roomId room hfind hroom
  refine ⟨?_, ?_, ?_, ?_, ?_⟩
  · unfold roomOf at hfind
    have := List.find?_some hfind
    simpa [listsPlayer, hroom] using this
  · simp
  · intro h1
    rw [hd, if_pos h1]
    refine ⟨_, mapGet_mapSet_self _ _ _, rfl, rfl, rfl, rfl, rfl, ?_⟩
    simp [mem_setRoomDeletionTimer]
  · intro h0
    have h1 : ¬ (room.players.filter (fun id => decide (id ≠ sid))).length = 1 := by omega
    rw [hd, if_neg h1, if_pos h0]
    refine ⟨mapGet_mapDelete_self _ _, ?_, rfl⟩
    simp [mem_cancelRoomDeletionTimer]
  · intro st2 rid hin
    simp only [timerExpired, hin, if_true]
    exact ⟨mapGet_mapDelete_self _ _, by simp [mem_cancelRoomDeletionTimer]⟩

/-! ## Counting the markers on a board -/

theorem countP_set_none (l : List Cell) (v : Role) :
    ∀ i : Nat, l[i]? = some none →
      (l.set i (some v)).countP (fun cell => cell != none)
        = l.countP (fun cell => cell != none) + 1 := by
  induction l with
  | nil => intro i h; simp at h
  | cons a l ih =>
    intro i h
    cases i with
    | zero =>
      simp only [List.getElem?_cons_zero, Option.some.injEq] at h
      subst h
      simp [List.countP_cons]
    | succ i =>
      simp only [List.getElem?_cons_succ] at h
      simp only [List.set_cons_succ, List.countP_cons, ih i h]
      omega

theorem sum_map_set (f : List Cell → Nat) (b : Board) (l l1 : List Cell) (h1 : f l1 = f l + 1) :
    ∀ r : Nat, b[r]? = some l → ((b.set r l1).map f).sum = (b.map f).sum + 1 := by
  induction b with
  | nil => intro r h; simp at h
  | cons a b ih =>
    intro r h
    cases r with
    | zero =>
      simp only [List.getElem?_cons_zero, Option.some.injEq] at h
      subst h
      simp only [List.set_cons_zero, List.map_cons, List.sum_cons, h1]
      omega
    | succ r =>
      simp only [List.getElem?_cons_succ] at h
      simp only [List.set_cons_succ, List.map_cons, List.sum_cons, ih r h]
      omega

theorem filledCells_setCell (board : Board) (row : Nat) (col : Int) (v : Role)
    (h : cellAt board row col = some none) :
    filledCells (setCell board row col (some v)) = filledCells board + 1 := by
  obtain ⟨_, _, l, hl, hcell⟩ := (cellAt_eq_some_iff board row col none).1 h
  simp only [Int.toNat_ofNat] at hl
  unfold filledCells setCell
  have hd : board.getD row [] = l := by
    simp [List.getD_eq_getElem?_getD, hl]
  rw [hd]
  exact sum_map_set _ board l _ (countP_set_none l v col.toNat hcell) row hl

theorem setCell_WF (board : Board) (row : Nat) (col : Int) (v : Cell) (h : board.WF) :
    (setCell board row col v).WF := by
  unfold setCell
  by_cases hr : row < board.length
  · constructor
    · rw [List.length_set]; exact h.1
    · intro l hl
      rcases List.mem_or_eq_of_mem_set hl with h1 | h1
      · exact h.2 l h1
      · rw [h1, List.length_set]
        have hm : board.getD row [] ∈ board := by
          rw [List.getD_eq_getElem?_getD, List.getElem?_eq_getElem hr]
          simp
        exact h.2 _ hm
  · rw [List.set_eq_of_length_le (by omega)]
    exact h

theorem sum_map_const (f : List Cell → Nat) (n : Nat) :
    ∀ b : Board, (∀ row ∈ b, f row = n) → (b.map f).sum = n * b.length := by
  intro b
  induction b with
  | nil => intro _; simp
  | cons a b ih =>
    intro h
    simp only [List.map_cons, List.sum_cons, List.length_cons, h a (by simp),
      ih (fun row hrow => h row (by simp [hrow]))]
    ring

theorem filledCells_of_full (board : Board) (hwf : board.WF) (hfull : isBoardFull board = true) :
    filledCells board = 100 := by
  have hall := (isBoardFull_iff board).1 hfull
  unfold filledCells
  rw [sum_map_const _ 10 board, hwf.1]
  intro row hrow
  rw [← hwf.2 row hrow, List.countP_eq_length]
  intro cell hcell
  simpa using hall row hrow cell hcell

theorem emptyBoard_WF : emptyBoard.WF := by decide

theorem filledCells_emptyBoard : filledCells emptyBoard = 0 := by decide

theorem runMoves_count (roomId : RoomId) :
    ∀ (moves : List (SocketId × Int)) (st : Server) (room : Room) (k : Nat),
      mapGet st.rooms roomId = some room → room.board.WF → filledCells room.board = k →
      room.gameOver = false → k + moves.length < 100 → NonWinningRun roomId st moves →
      ∃ room1, mapGet (runMoves roomId st moves).rooms roomId = some room1 ∧
        room1.board.WF ∧ filledCells room1.board = k + moves.length ∧
        room1.gameOver = false := by
  intro moves
  induction moves with
  | nil =>
    intro st room k hroom hwf hk hover _ _
    exact ⟨room, hroom, hwf, by simpa using hk, hover⟩
  | cons m rest ih =>
    intro st room k hroom hwf hk hover hlen hrun
    obtain ⟨⟨room0, row, hroom0, _, hturn, hf, hw⟩, hrest⟩ := hrun
    rw [hroom] at hroom0
    cases hroom0
    simp only [List.length_cons] at hlen
    have hnull := (findRow_some room.board m.2 row hf).2.2.1
    have hwf1 := setCell_WF room.board row m.2 (some room.currentPlayer) hwf
    have hcount := filledCells_setCell room.board row m.2 room.currentPlayer hnull
    have hb : isBoardFull (setCell room.board row m.2 (some room.currentPlayer)) = false := by
      cases h : isBoardFull (setCell room.board row m.2 (some room.currentPlayer)) with
      | false => rfl
      | true =>
        have := filledCells_of_full _ hwf1 h
        omega
    have hget : mapGet (makeMove st m.1 roomId m.2).1.rooms roomId =
        some { room with board := setCell room.board row m.2 (some room.currentPlayer),
                         currentPlayer := otherRole room.currentPlayer } := by
      rw [makeMove_eq st m.1 roomId m.2 room hroom,
        makeMoveRoom_next room m.1 roomId m.2 row hover hturn hf hw hb]
      exact mapGet_mapSet_self _ _ _
    obtain ⟨room1, h1, h2, h3, h4⟩ :=
      ih _ _ (k + 1) hget hwf1 (by rw [← hk]; exact hcount) hover (by omega) hrest
    exact ⟨room1, h1, h2, by simp only [List.length_cons]; omega, h4⟩

/-- C13: after `k < 100` accepted non-winning moves on a room whose board was empty and whose
game was not over, exactly `k` cells are non-empty, the board is not full and `gameOver` is
false (so no draw has been declared); a room just created and joined is such a room. -/
theorem moves_fill_count (st : Server) (roomId : RoomId) (room : Room)
    (moves : List (SocketId × Int)) (hroom : mapGet st.rooms roomId = some room)
    (hboard : room.board = emptyBoard) (hover : room.gameOver = false)
    (hlen : moves.length < 100) (hrun : NonWinningRun roomId st moves) :
    (∃ room1, mapGet (runMoves roomId st moves).rooms roomId = some room1 ∧
      filledCells room1.board = moves.length ∧ isBoardFull room1.board = false ∧
      room1.gameOver = false) ∧
    (∀ (st0 : Server) (a b : SocketId) (rid : RoomId),
      ∃ room0, mapGet (joinRoom (createRoom st0 a rid).1 b rid).1.rooms rid = some room0 ∧
        room0.board = emptyBoard ∧ room0.gameOver = false ∧ room0.players = [a, b]) := by
  constructor
  · obtain ⟨room1, h1, h2, h3, h4⟩ := runMoves_count roomId moves st room 0 hroom
      (by rw [hboard]; exact emptyBoard_WF) (by rw [hboard]; exact filledCells_emptyBoard)
      hover (by omega) hrun
    refine ⟨room1, h1, by omega, ?_, h4⟩
    cases h : isBoardFull room1.board with
    | false => rfl
    | true =>
      have := filledCells_of_full _ h2 h
      omega
  · intro st0 a b rid
    have hget : mapGet (createRoom st0 a rid).1.rooms rid =
        some { id := rid, players := [a], board := emptyBoard, currentPlayer := Role.X,
               playerRoles := [(a, Role.X)], gameOver := false } := by
      simp only [createRoom]
      exact mapGet_mapSet_self _ _ _
    simp only [joinRoom, hget]
    simp only [List.length_singleton, Nat.not_ofNat_le_one, if_false]
    exact ⟨_, mapGet_mapSet_self _ _ _, rfl, rfl, rfl⟩

/-! ## Local win detection against a full-board scan -/

theorem not_holds_emptyBoard (player : Role) (r c : Int) : ¬ holds emptyBoard player r c := by
  rintro ⟨⟨h1, h2⟩, ⟨h3, h4⟩, h5⟩
  have := cellAt_emptyBoard r.toNat c.toNat (by omega) (by omega)
  rw [Int.toNat_of_nonneg h1, Int.toNat_of_nonneg h3, h5] at this
  cases this

theorem not_hasFour_emptyBoard : ¬ hasFour emptyBoard := by
  rintro ⟨player, _, d, _, r, _, c, _, h⟩
  exact not_holds_emptyBoard player _ _ (h 0 (by simp))

theorem hasFour_of_fourInLine (board : Board) (player : Role) (row col : Int)
    (h : fourInLine board player row col) : hasFour board := by
  obtain ⟨d, hd, j, hj, hall⟩ := h
  have h0 := hall 0 (by simp)
  obtain ⟨⟨a1, a2⟩, ⟨a3, a4⟩, _⟩ := h0
  refine ⟨player, by cases player <;> simp, d, hd,
    (row + ((0 : Nat) - (j : Int)) * d.1).toNat, by rw [List.mem_range]; omega,
    (col + ((0 : Nat) - (j : Int)) * d.2).toNat, by rw [List.mem_range]; omega, ?_⟩
  intro i hi
  rw [Int.toNat_of_nonneg a1, Int.toNat_of_nonneg a3]
  have := hall i hi
  have e1 : row + ((0 : Nat) - (j : Int)) * d.1 + (i : Int) * d.1
      = row + ((i : Int) - (j : Int)) * d.1 := by push_cast; ring
  have e2 : col + ((0 : Nat) - (j : Int)) * d.2 + (i : Int) * d.2
      = col + ((i : Int) - (j : Int)) * d.2 := by push_cast; ring
  rw [e1, e2]
  exact this

theorem hasFour_setCell (board : Board) (row : Nat) (col : Int) (cp : Role)
    (hnull : cellAt board row col = some none)
    (h : hasFour (setCell board row col (some cp))) :
    hasFour board ∨ fourInLine (setCell board row col (some cp)) cp row col := by
  have hcol : 0 ≤ col := ((cellAt_eq_some_iff board row col none).1 hnull).2.1
  have hself := cellAt_setCell_self board row col (some cp) (by rw [hnull]; simp)
  obtain ⟨player, hp, d, hd, r, hr, c, hc, hall⟩ := h
  by_cases hthrough : ∃ j ∈ List.range 4,
      (r : Int) + (j : Int) * d.1 = row ∧ (c : Int) + (j : Int) * d.2 = col
  · right
    obtain ⟨j, hj, e1, e2⟩ := hthrough
    have hpl : player = cp := by
      have := (hall j hj).2.2
      rw [e1, e2, hself] at this
      simpa using this.symm
    subst hpl
    refine ⟨d, hd, j, hj, ?_⟩
    intro i hi
    have := hall i hi
    have f1 : (row : Int) + ((i : Int) - (j : Int)) * d.1 = (r : Int) + (i : Int) * d.1 := by
      rw [← e1]; ring
    have f2 : col + ((i : Int) - (j : Int)) * d.2 = (c : Int) + (i : Int) * d.2 := by
      rw [← e2]; ring
    rw [f1, f2]
    exact this
  · left
    refine ⟨player, hp, d, hd, r, hr, c, hc, ?_⟩
    intro i hi
    obtain ⟨b1, b2, b3⟩ := hall i hi
    refine ⟨b1, b2, ?_⟩
    rw [← b3]
    symm
    apply cellAt_setCell_ne board row col _ _ _ hcol
    intro hcell
    exact hthrough ⟨i, hi, hcell.1, hcell.2⟩

theorem cellAt_lt_of_WF (board : Board) (hwf : board.WF) (r c : Int) (v : Cell)
    (h : cellAt board r c = some v) : r < 10 ∧ c < 10 := by
  obtain ⟨h1, h2, l, hl, hcell⟩ := (cellAt_eq_some_iff board r c v).1 h
  have hr : r.toNat < board.length := by
    rcases Nat.lt_or_ge r.toNat board.length with h | h
    · exact h
    · rw [List.getElem?_eq_none h] at hl; cases hl
  have hc : c.toNat < l.length := by
    rcases Nat.lt_or_ge c.toNat l.length with h | h
    · exact h
    · rw [List.getElem?_eq_none h] at hcell; cases hcell
  have hmem : l ∈ board := List.getElem?_mem hl
  rw [hwf.1] at hr
  rw [hwf.2 l hmem] at hc
  omega

theorem checkWin_isSome_iff_hasFour (board : Board) (row : Nat) (col : Int) (cp : Role)
    (hwf : board.WF) (hnull : cellAt board row col = some none) (hno : ¬ hasFour board) :
    (checkWin (setCell board row col (some cp)) row col cp).isSome = true ↔
      hasFour (setCell board row col (some cp)) := by
  have hself := cellAt_setCell_self board row col (some cp) (by rw [hnull]; simp)
  have hcol : 0 ≤ col := ((cellAt_eq_some_iff board row col none).1 hnull).2.1
  have hlt := cellAt_lt_of_WF board hwf row col none hnull
  have h0 : holds (setCell board row col (some cp)) cp row col :=
    ⟨⟨by omega, hlt.1⟩, ⟨hcol, hlt.2⟩, hself⟩
  constructor
  · intro hsome
    obtain ⟨cells, hcells⟩ := Option.isSome_iff_exists.1 hsome
    obtain ⟨d, hd, he, h4⟩ := checkWinLoop_some _ _ _ _ cells directions hcells
    exact hasFour_of_fourInLine _ cp row col
      ((fourInLine_iff_axis _ cp row col h0).2 ⟨d, hd, by rw [← he]; exact h4⟩)
  · intro hfour
    rcases hasFour_setCell board row col cp hnull hfour with h | h
    · exact absurd h hno
    · obtain ⟨cells, hcells, _⟩ := checkWin_some_of_fourInLine _ cp row col h0 h
      rw [hcells]; rfl

theorem step_room_reset (st : Server) (e : Event) (roomId : RoomId) (room1 : Room)
    (hres : e.isResetOf roomId = true)
    (h1 : mapGet (step st e).1.rooms roomId = some room1) :
    room1.board = emptyBoard ∧ room1.gameOver = false ∧ room1.currentPlayer = Role.X := by
  cases e with
  | createRoom sid rid =>
    simp only [Event.isResetOf, decide_eq_true_eq] at hres
    subst hres
    simp only [step, createRoom, mapGet_mapSet_self, Option.some.injEq] at h1
    subst h1
    exact ⟨rfl, rfl, rfl⟩
  | resetGame sid rid =>
    simp only [Event.isResetOf, decide_eq_true_eq] at hres
    subst hres
    simp only [step, resetGame] at h1
    cases hget : mapGet st.rooms rid with
    | none =>
      simp only [hget] at h1
      cases h1
    | some room =>
      simp only [hget, mapGet_mapSet_self, Option.some.injEq] at h1
      subst h1
      exact ⟨rfl, rfl, rfl⟩
  | joinRoom _ _ => simp [Event.isResetOf] at hres
  | makeMove _ _ _ => simp [Event.isResetOf] at hres
  | disconnect _ => simp [Event.isResetOf] at hres
  | timerExpired _ => simp [Event.isResetOf] at hres

theorem ScanInv_initial : ScanInv initial := by
  intro rid room h
  simp [initial, mapGet] at h

theorem ScanInv_step (st : Server) (e : Event) (hinv : ScanInv st) : ScanInv (step st e).1 := by
  intro rid room1 h1
  by_cases hres : e.isResetOf rid = true
  · obtain ⟨hb, _, _⟩ := step_room_reset st e rid room1 hres h1
    rw [hb]
    exact ⟨emptyBoard_WF, fun _ => not_hasFour_emptyBoard⟩
  · obtain ⟨room, hroom, hcase⟩ := step_room st e rid room1 (by simpa using hres) h1
    obtain ⟨hwf, hno⟩ := hinv rid room hroom
    rcases hcase with ⟨hb, _, hg⟩ | ⟨sid, col, _, hm⟩
    · rw [hb, hg]; exact ⟨hwf, hno⟩
    · rcases makeMoveRoom_cases room sid rid col with h | ⟨row, hf, hover, _, h | h | h⟩
      · rw [hm, h]; exact ⟨hwf, hno⟩
      · obtain ⟨_, _, h⟩ := h
        rw [hm, h]
        exact ⟨setCell_WF _ _ _ _ hwf, fun hc => by cases hc⟩
      · rw [hm, h.2.2]
        exact ⟨setCell_WF _ _ _ _ hwf, fun hc => by cases hc⟩
      · rw [hm, h.2.2]
        refine ⟨setCell_WF _ _ _ _ hwf, fun _ hfour => ?_⟩
        have hnull := (findRow_some room.board col row hf).2.2.1
        have := (checkWin_isSome_iff_hasFour room.board row col room.currentPlayer hwf hnull
          (hno hover)).2 hfour
        rw [h.1] at this
        cases this

theorem ScanInv_run :
    ∀ (evs : List Event) (st : Server), ScanInv st → ScanInv (run st evs) := by
  intro evs
  induction evs with
  | nil => intro st h; exact h
  | cons e es ih =>
    intro st h
    exact ih _ (ScanInv_step st e h)

/-- C19: in every state reached from the empty server, a registered room whose game is not
over has no four contiguous collinear cells of one role anywhere on its board; hence for any
placement made there, `checkWin` at the placed cell is non-null exactly when a scan of the
whole new board finds four in a row. -/
theorem local_detection_complete (evs : List Event) (rid : RoomId) (room : Room)
    (hroom : mapGet (run initial evs).rooms rid = some room) (hover : room.gameOver = false) :
    ¬ hasFour room.board ∧
      ∀ (col : Int) (row : Nat), findRow room.board col = some row →
        ((checkWin (setCell room.board row col (some room.currentPlayer)) row col
            room.currentPlayer).isSome = true ↔
          hasFour (setCell room.board row col (some room.currentPlayer))) := by
  obtain ⟨hwf, hno⟩ := ScanInv_run evs initial ScanInv_initial rid room hroom
  refine ⟨hno hover, ?_⟩
  intro col row hf
  exact checkWin_isSome_iff_hasFour room.board row col room.currentPlayer hwf
    (findRow_some room.board col row hf).2.2.1 (hno hover)

/-! ## Boards are filled from the bottom -/

theorem gravity_emptyBoard (r r1 : Nat) (c : Int) (h1 : r1 < r) (hr : r < 10)
    (h : cellAt emptyBoard r c = some none) : cellAt emptyBoard r1 c = some none := by
  have hc0 : 0 ≤ c := ((cellAt_eq_some_iff emptyBoard r c none).1 h).2.1
  have hc := (cellAt_lt_of_WF emptyBoard emptyBoard_WF r c none h).2
  have := cellAt_emptyBoard r1 c.toNat (by omega) (by omega)
  rw [Int.toNat_of_nonneg hc0] at this
  exact this

theorem gravity_setCell (board : Board) (col : Int) (row : Nat) (v : Role)
    (hf : findRow board col = some row)
    (hg : ∀ (r r1 : Nat) (c : Int), r1 < r → r < 10 → cellAt board r c = some none →
      cellAt board r1 c = some none) :
    ∀ (r r1 : Nat) (c : Int), r1 < r → r < 10 →
      cellAt (setCell board row col (some v)) r c = some none →
      cellAt (setCell board row col (some v)) r1 c = some none := by
  obtain ⟨_, hcol, hnull, habove⟩ := findRow_some board col row hf
  have hself := cellAt_setCell_self board row col (some v) (by rw [hnull]; simp)
  intro r r1 c h1 hr hnew
  have hne : ¬ ((r : Int) = row ∧ c = col) := by
    rintro ⟨e1, e2⟩
    have e3 : r = row := by omega
    subst e3; subst e2
    rw [hself] at hnew
    cases hnew
  have hold : cellAt board r c = some none := by
    rw [← cellAt_setCell_ne board row col (some v) r c hcol hne]; exact hnew
  have hne1 : ¬ ((r1 : Int) = row ∧ c = col) := by
    rintro ⟨e1, e2⟩
    have e3 : r1 = row := by omega
    subst e3; subst e2
    exact habove r h1 hr hold
  rw [cellAt_setCell_ne board row col (some v) r1 c hcol hne1]
  exact hg r r1 c h1 hr hold

theorem GravityInv_initial : GravityInv initial := by
  intro rid room h
  simp [initial, mapGet] at h

theorem GravityInv_step (st : Server) (e : Event) (hinv : GravityInv st) :
    GravityInv (step st e).1 := by
  intro rid room1 h1
  by_cases hres : e.isResetOf rid = true
  · obtain ⟨hb, _, _⟩ := step_room_reset st e rid room1 hres h1
    rw [hb]
    exact gravity_emptyBoard
  · obtain ⟨room, hroom, hcase⟩ := step_room st e rid room1 (by simpa using hres) h1
    have hg := hinv rid room hroom
    rcases hcase with ⟨hb, _, _⟩ | ⟨sid, col, _, hm⟩
    · rw [hb]; exact hg
    · rcases makeMoveRoom_board_cases room sid rid col with hb | ⟨row, hf, hb⟩
      · rw [hm, hb]; exact hg
      · rw [hm, hb]
        exact gravity_setCell room.board col row room.currentPlayer hf hg

theorem GravityInv_run :
    ∀ (evs : List Event) (st : Server), GravityInv st → GravityInv (run st evs) := by
  intro evs
  induction evs with
  | nil => intro st h; exact h
  | cons e es ih =>
    intro st h
    exact ih _ (GravityInv_step st e h)

/-- C3 (amended): in every reachable state, when X's accepted move lands on row 6 of column 0
while rows 7, 8, 9 of that column hold X, `checkWin` returns a list of at least four cells and
the move broadcasts `gameOver` with winner X and that list; the list is exactly rows 6, 7, 8,
9 of column 0 when the cells of row 6 in columns 1, 2, 3 are not all X. -/
theorem makeMove_vertical_win (evs : List Event) (sid : SocketId) (roomId : RoomId)
    (room : Room) (hroom : mapGet (run initial evs).rooms roomId = some room)
    (hover : room.gameOver = false) (hcp : room.currentPlayer = Role.X)
    (hturn : mapGet room.playerRoles sid = some Role.X)
    (hland : findRow room.board 0 = some 6)
    (h7 : cellAt room.board 7 0 = some (some Role.X))
    (h8 : cellAt room.board 8 0 = some (some Role.X))
    (h9 : cellAt room.board 9 0 = some (some Role.X)) :
    ∃ cells, checkWin (setCell room.board 6 0 (some Role.X)) 6 0 Role.X = some cells ∧
      4 ≤ cells.length ∧
      makeMove (run initial evs) sid roomId 0 =
        ({ (run initial evs) with
            rooms := mapSet (run initial evs).rooms roomId
              { room with board := setCell room.board 6 0 (some Role.X), gameOver := true } },
          [Emit.toRoom roomId (Payload.gameOver (some Role.X) (some cells)
            (setCell room.board 6 0 (some Role.X)))]) ∧
      (¬ (cellAt room.board 6 1 = some (some Role.X) ∧ cellAt room.board 6 2 = some (some Role.X)
            ∧ cellAt room.board 6 3 = some (some Role.X)) →
        cells = [(6, 0), (7, 0), (8, 0), (9, 0)]) := by
  have hg := GravityInv_run evs initial GravityInv_initial roomId room hroom
  have hnull := (findRow_some room.board 0 6 hland).2.2.1
  have h5 : cellAt room.board 5 0 ≠ some (some Role.X) := by
    have := hg 6 5 0 (by omega) (by omega) hnull
    have e : cellAt room.board 5 0 = some none := by simpa using this
    rw [e]
    simp
  obtain ⟨cells, a1, a2, a3, a4⟩ :=
    vertical_win_any_state (run initial evs) sid roomId room hroom hover hcp hturn hland h7 h8 h9
  exact ⟨cells, a1, a2, a3, fun hrow => a4 hrow h5⟩

/-! ## Instances of the theorems on concrete games -/

set_option maxRecDepth 100000

theorem checkWin_iff_fourInLine_witness :
    holds (roomAt (run initial wonGame) "R").board Role.X 6 0 ∧
      (((∃ cells, checkWin (roomAt (run initial wonGame) "R").board 6 0 Role.X = some cells ∧
            4 ≤ cells.length) ↔
          fourInLine (roomAt (run initial wonGame) "R").board Role.X 6 0) ∧
        (¬ fourInLine (roomAt (run initial wonGame) "R").board Role.X 6 0 →
          checkWin (roomAt (run initial wonGame) "R").board 6 0 Role.X = none)) :=
  ⟨by decide, checkWin_iff_fourInLine _ Role.X 6 0 (by decide)⟩

theorem checkWin_cells_witness :
    checkWin (roomAt (run initial wonGame) "R").board 6 0 Role.X
        = some [(6, 0), (7, 0), (8, 0), (9, 0)] ∧
      ∃ k d run1 run2, directions.get? k = some d ∧
        IsMaxRun (roomAt (run initial wonGame) "R").board Role.X 6 0 d.1.1 d.1.2 run1 ∧
        IsMaxRun (roomAt (run initial wonGame) "R").board Role.X 6 0 d.2.1 d.2.2 run2 ∧
        [(6, 0), (7, 0), (8, 0), (9, 0)] = ((6, 0) : Coord) :: (run1 ++ run2) ∧
        4 ≤ [((6, 0) : Coord), (7, 0), (8, 0), (9, 0)].length ∧
        (∀ k' d' r1 r2, k' < k → directions.get? k' = some d' →
          IsMaxRun (roomAt (run initial wonGame) "R").board Role.X 6 0 d'.1.1 d'.1.2 r1 →
          IsMaxRun (roomAt (run initial wonGame) "R").board Role.X 6 0 d'.2.1 d'.2.2 r2 →
          (((6, 0) : Coord) :: (r1 ++ r2)).length < 4) ∧
        [((6, 0) : Coord), (7, 0), (8, 0), (9, 0)].Nodup ∧
        ∀ p ∈ [((6, 0) : Coord), (7, 0), (8, 0), (9, 0)], p ≠ (6, 0) →
          holds (roomAt (run initial wonGame) "R").board Role.X p.1 p.2 :=
  ⟨by decide, checkWin_cells _ Role.X 6 0 _ (by decide)⟩


theorem makeMove_vertical_win_witness :
    mapGet (run initial openingGame).rooms "R" = some (roomAt (run initial openingGame) "R") ∧
      ∃ cells,
        checkWin (setCell (roomAt (run initial openingGame) "R").board 6 0 (some Role.X)) 6 0
          Role.X = some cells ∧
        4 ≤ cells.length ∧
        makeMove (run initial openingGame) "a" "R" 0 =
          ({ (run initial openingGame) with
              rooms := mapSet (run initial openingGame).rooms "R"
                { (roomAt (run initial openingGame) "R") with
                  board := setCell (roomAt (run initial openingGame) "R").board 6 0 (some Role.X),
                  gameOver := true } },
            [Emit.toRoom "R" (Payload.gameOver (some Role.X) (some cells)
              (setCell (roomAt (run initial openingGame) "R").board 6 0 (some Role.X)))]) ∧
        (¬ (cellAt (roomAt (run initial openingGame) "R").board 6 1 = some (some Role.X) ∧
              cellAt (roomAt (run initial openingGame) "R").board 6 2 = some (some Role.X) ∧
              cellAt (roomAt (run initial openingGame) "R").board 6 3 = some (some Role.X)) →
          cells = [(6, 0), (7, 0), (8, 0), (9, 0)]) :=
  ⟨by decide,
    makeMove_vertical_win openingGame "a" "R" (roomAt (run initial openingGame) "R")
      (by decide) (by decide) (by decide) (by decide) (by decide) (by decide) (by decide)
      (by decide)⟩

/-- C3 (as stated) fails: in a reachable position X's move lands on row 6 of column 0 above
three X markers, and `checkWin` returns the four cells of row 6, not those of column 0. -/
theorem makeMove_vertical_win_counterexample :
    (roomAt (run initial crossGame) "R").gameOver = false ∧
      (roomAt (run initial crossGame) "R").currentPlayer = Role.X ∧
      mapGet (roomAt (run initial crossGame) "R").playerRoles "a" = some Role.X ∧
      findRow (roomAt (run initial crossGame) "R").board 0 = some 6 ∧
      cellAt (roomAt (run initial crossGame) "R").board 7 0 = some (some Role.X) ∧
      cellAt (roomAt (run initial crossGame) "R").board 8 0 = some (some Role.X) ∧
      cellAt (roomAt (run initial crossGame) "R").board 9 0 = some (some Role.X) ∧
      checkWin (setCell (roomAt (run initial crossGame) "R").board 6 0 (some Role.X)) 6 0 Role.X
        = some [(6, 0), (6, 1), (6, 2), (6, 3)] ∧
      (makeMove (run initial crossGame) "a" "R" 0).2 =
        [Emit.toRoom "R" (Payload.gameOver (some Role.X) (some [(6, 0), (6, 1), (6, 2), (6, 3)])
          (setCell (roomAt (run initial crossGame) "R").board 6 0 (some Role.X)))] := by
  decide

theorem makeMove_drops_lowest_witness :
    mapGet (run initial openingGame).rooms "R" = some (roomAt (run initial openingGame) "R") ∧
      ∃ (row : Nat) (room1 : Room), row < 10 ∧ (0 : Int) ≤ 0 ∧
        cellAt (roomAt (run initial openingGame) "R").board row 0 = some none ∧
        (∀ r : Nat, row < r → r < 10 →
          cellAt (roomAt (run initial openingGame) "R").board r 0 ≠ some none) ∧
        mapGet (makeMove (run initial openingGame) "a" "R" 0).1.rooms "R" = some room1 ∧
        cellAt room1.board row 0 =
          some (mapGet (roomAt (run initial openingGame) "R").playerRoles "a") ∧
        ∀ r c : Int, ¬ (r = row ∧ c = 0) →
          cellAt room1.board r c = cellAt (roomAt (run initial openingGame) "R").board r c :=
  ⟨by decide,
    makeMove_drops_lowest (run initial openingGame) "a" "R" 0
      (roomAt (run initial openingGame) "R") (by decide) (by decide) (by decide)
      ⟨6, by decide, by decide⟩⟩

theorem makeMove_full_column_witness :
    (∀ r : Nat, r < 10 →
        cellAt (roomAt (run initial (startGame ++ columnMoves)) "R").board r 0 ≠ some none) ∧
      makeMove (run initial (startGame ++ columnMoves)) "a" "R" 0 =
        (run initial (startGame ++ columnMoves), []) :=
  ⟨by decide,
    makeMove_full_column (run initial (startGame ++ columnMoves)) "a" "R" 0
      (roomAt (run initial (startGame ++ columnMoves)) "R") (by decide) (by decide) (by decide)
      (by decide)⟩

theorem column_capacity_witness :
    placedRows "R" 0 (run initial startGame) columnMoves = [9, 8, 7, 6, 5, 4, 3, 2, 1, 0] ∧
      ((placedRows "R" 0 (run initial startGame) columnMoves).length ≤ 10 ∧
      ((∀ room, mapGet (run initial startGame).rooms "R" = some room →
          ∀ r : Nat, r < 10 → cellAt room.board r 0 = some none) →
        placedRows "R" 0 (run initial startGame) columnMoves <+: [9, 8, 7, 6, 5, 4, 3, 2, 1, 0]) ∧
      ((placedRows "R" 0 (run initial startGame) columnMoves).length = 10 →
        ∀ sid, (makeMove (run (run initial startGame) columnMoves) sid "R" 0).1
            = run (run initial startGame) columnMoves ∧
          ∀ rid p, Emit.toRoom rid p ∉
            (makeMove (run (run initial startGame) columnMoves) sid "R" 0).2)) :=
  ⟨by decide, column_capacity (run initial startGame) "R" 0 columnMoves (by decide)⟩


theorem makeMove_alternates_witness :
    NonTerminalRun "R" (run initial startGame) [("a", 0), ("b", 1)] ∧
      ∃ room role row room1, mapGet (run initial startGame).rooms "R" = some room ∧
        mapGet room.playerRoles "a" = some role ∧
        mapGet (makeMove (run initial startGame) "a" "R" 0).1.rooms "R" = some room1 ∧
        room1.currentPlayer = otherRole role ∧ otherRole role ≠ role ∧
        (makeMove (run initial startGame) "a" "R" 0).2 =
          [Emit.toRoom "R"
            (Payload.moveMade row 0 (some role) (otherRole role) room1.board)] ∧
        ∀ n, n ≤ [(("b", 1) : SocketId × Int)].length + 1 →
          roomTurn (runMoves "R" (run initial startGame)
              ((([("a", 0), ("b", 1)] : List (SocketId × Int))).take n)) "R" =
            some (otherRole^[n] room.currentPlayer) :=
  have h : NonTerminalRun "R" (run initial startGame) [("a", 0), ("b", 1)] :=
    ⟨⟨roomAt (run initial startGame) "R", 9, by decide, by decide, by decide, by decide,
        by decide, by decide⟩,
      ⟨roomAt (makeMove (run initial startGame) "a" "R" 0).1 "R", 9, by decide, by decide,
        by decide, by decide, by decide, by decide⟩,
      trivial⟩
  ⟨h, makeMove_alternates (run initial startGame) "R" "a" 0 [("b", 1)] h⟩

theorem makeMove_not_your_turn_witness :
    (roomAt (run initial openingGame) "R").gameOver = false ∧
      mapGet (roomAt (run initial openingGame) "R").playerRoles "b"
        ≠ some (roomAt (run initial openingGame) "R").currentPlayer ∧
      makeMove (run initial openingGame) "b" "R" 4 =
        (run initial openingGame, [Emit.toSocket "b" (Payload.error errNotYourTurn)]) :=
  ⟨by decide, by decide,
    makeMove_not_your_turn (run initial openingGame) "b" "R" 4
      (roomAt (run initial openingGame) "R") (by decide) (by decide) (by decide)⟩

/-- C8 (as stated) fails: after X has won, the room exists and the current turn is still X, yet
a move by the O player gets no error event at all. -/
theorem makeMove_not_your_turn_counterexample :
    mapGet (run initial wonGame).rooms "R" = some (roomAt (run initial wonGame) "R") ∧
      (roomAt (run initial wonGame) "R").players = ["a", "b"] ∧
      mapGet (roomAt (run initial wonGame) "R").playerRoles "b" = some Role.O ∧
      (roomAt (run initial wonGame) "R").currentPlayer = Role.X ∧
      (roomAt (run initial wonGame) "R").gameOver = true ∧
      makeMove (run initial wonGame) "b" "R" 1 = (run initial wonGame, []) := by
  decide

theorem makeMove_twice_rejected_witness :
    AcceptedNonTerminal (run initial startGame) "a" "R" 0 ∧
      makeMove (makeMove (run initial startGame) "a" "R" 0).1 "a" "R" 5 =
        ((makeMove (run initial startGame) "a" "R" 0).1,
          [Emit.toSocket "a" (Payload.error errNotYourTurn)]) :=
  have h : AcceptedNonTerminal (run initial startGame) "a" "R" 0 :=
    ⟨roomAt (run initial startGame) "R", 9, by decide, by decide, by decide, by decide,
      by decide, by decide⟩
  ⟨h, makeMove_twice_rejected (run initial startGame) "a" "R" 0 5 h⟩

theorem gameOver_blocks_until_reset_witness :
    (roomAt (run initial wonGame) "R").gameOver = true ∧
    ((∀ sid col, makeMove (run initial wonGame) sid "R" col = (run initial wonGame, [])) ∧
    (∀ e room1, (∀ sid, e ≠ Event.createRoom sid "R") →
      mapGet (step (run initial wonGame) e).1.rooms "R" = some room1 → room1.gameOver = false →
      ∃ sid, e = Event.resetGame sid "R") ∧
    (∀ sid, ∃ room1,
      mapGet (step (run initial wonGame) (Event.resetGame sid "R")).1.rooms "R" = some room1 ∧
      room1.board = emptyBoard ∧ room1.currentPlayer = Role.X ∧ room1.gameOver = false ∧
      room1.players = (roomAt (run initial wonGame) "R").players ∧
      room1.playerRoles = (roomAt (run initial wonGame) "R").playerRoles ∧
      emptyBoard.WF ∧ ∀ r c : Nat, r < 10 → c < 10 → cellAt emptyBoard r c = some none)) :=
  ⟨by decide,
    gameOver_blocks_until_reset (run initial wonGame) "R" (roomAt (run initial wonGame) "R")
      (by decide) (by decide)⟩


theorem resetGame_idempotent_witness :
    ∃ room1, mapGet (resetGame (run initial wonGame) "R").1.rooms "R" = some room1 ∧
      room1.board = emptyBoard ∧ emptyBoard.WF ∧
      (∀ r c : Nat, r < 10 → c < 10 → cellAt room1.board r c = some none) ∧
      room1.currentPlayer = Role.X ∧ room1.gameOver = false ∧
      room1.players = (roomAt (run initial wonGame) "R").players ∧
      room1.playerRoles = (roomAt (run initial wonGame) "R").playerRoles ∧
      (resetGame (resetGame (run initial wonGame) "R").1 "R").1
        = (resetGame (run initial wonGame) "R").1 :=
  (resetGame_idempotent (run initial wonGame) "R").1 (roomAt (run initial wonGame) "R")
    (by decide)

theorem makeMove_outcome_witness :
    findRow (roomAt (run initial openingGame) "R").board 0 = some 6 ∧
      ∀ cells,
        checkWin (setCell (roomAt (run initial openingGame) "R").board 6 0
            (some (roomAt (run initial openingGame) "R").currentPlayer)) 6 0
          (roomAt (run initial openingGame) "R").currentPlayer = some cells →
        makeMove (run initial openingGame) "a" "R" 0 =
          ({ (run initial openingGame) with
              rooms := mapSet (run initial openingGame).rooms "R"
                { (roomAt (run initial openingGame) "R") with
                  board := setCell (roomAt (run initial openingGame) "R").board 6 0
                    (some (roomAt (run initial openingGame) "R").currentPlayer),
                  gameOver := true } },
            [Emit.toRoom "R" (Payload.gameOver
              (mapGet (roomAt (run initial openingGame) "R").playerRoles "a") (some cells)
              (setCell (roomAt (run initial openingGame) "R").board 6 0
                (some (roomAt (run initial openingGame) "R").currentPlayer)))]) :=
  ⟨by decide,
    (makeMove_outcome (run initial openingGame) "a" "R" 0 (roomAt (run initial openingGame) "R")
      6 (by decide) (by decide) (by decide) (by decide)).1⟩

theorem moves_fill_count_witness :
    NonWinningRun "R" (run initial startGame) [("a", 0), ("b", 1)] ∧
      ∃ room1, mapGet (runMoves "R" (run initial startGame) [("a", 0), ("b", 1)]).rooms "R"
          = some room1 ∧
        filledCells room1.board = [(("a", 0) : SocketId × Int), ("b", 1)].length ∧
        isBoardFull room1.board = false ∧ room1.gameOver = false :=
  have h : NonWinningRun "R" (run initial startGame) [("a", 0), ("b", 1)] :=
    ⟨⟨roomAt (run initial startGame) "R", 9, by decide, by decide, by decide, by decide,
        by decide⟩,
      ⟨roomAt (makeMove (run initial startGame) "a" "R" 0).1 "R", 9, by decide, by decide,
        by decide, by decide, by decide⟩,
      trivial⟩
  ⟨h, (moves_fill_count (run initial startGame) "R" (roomAt (run initial startGame) "R")
    [("a", 0), ("b", 1)] (by decide) (by decide) (by decide) (by decide) h).1⟩

theorem joinRoom_outcome_witness :
    ∃ room1, mapGet (joinRoom (run initial [Event.createRoom "a" "R"]) "b" "R").1.rooms "R"
        = some room1 ∧
      room1.players = (roomAt (run initial [Event.createRoom "a" "R"]) "R").players ++ ["b"] ∧
      room1.players.length = 2 ∧
      mapGet room1.playerRoles "b" = some Role.O ∧
      "R" ∉ (joinRoom (run initial [Event.createRoom "a" "R"]) "b" "R").1.roomTimers ∧
      (∀ t, t ≠ "R" →
        (t ∈ (joinRoom (run initial [Event.createRoom "a" "R"]) "b" "R").1.roomTimers ↔
          t ∈ (run initial [Event.createRoom "a" "R"]).roomTimers)) ∧
      room1.board = (roomAt (run initial [Event.createRoom "a" "R"]) "R").board ∧
      room1.currentPlayer = (roomAt (run initial [Event.createRoom "a" "R"]) "R").currentPlayer ∧
      room1.gameOver = (roomAt (run initial [Event.createRoom "a" "R"]) "R").gameOver ∧
      (joinRoom (run initial [Event.createRoom "a" "R"]) "b" "R").2 =
        [Emit.toSocket "b" (Payload.roomJoined "R" Role.O),
         Emit.toRoom "R" (Payload.gameStart
          (roomAt (run initial [Event.createRoom "a" "R"]) "R").board
          (roomAt (run initial [Event.createRoom "a" "R"]) "R").currentPlayer 2)] :=
  (joinRoom_outcome [Event.createRoom "a" "R"] "b" "R").2.2
    (roomAt (run initial [Event.createRoom "a" "R"]) "R") (by decide) (by decide)

theorem reachable_rooms_and_timers_witness :
    (1 ≤ (roomAt (run initial leftAloneGame) "R").players.length ∧
        (roomAt (run initial leftAloneGame) "R").players.length ≤ 2) ∧
      ∃ room, mapGet (run initial leftAloneGame).rooms "R" = some room ∧
        room.players.length = 1 :=
  ⟨(reachable_rooms_and_timers leftAloneGame).1 "R" (roomAt (run initial leftAloneGame) "R")
      (by decide),
    (reachable_rooms_and_timers leftAloneGame).2 "R" (by decide)⟩

/-- C18, failing run: `a` is a member of `R2` (and of `R1`); when `a` disconnects the handler
stops at `R1`, so `R2` still lists `a`, nothing is broadcast and no timer is armed for `R2`. -/
theorem disconnect_skips_second_room :
    mapGet (run initial sharedGame).rooms "R2" = some (roomAt (run initial sharedGame) "R2") ∧
      "a" ∈ (roomAt (run initial sharedGame) "R2").players ∧
      (roomAt (disconnect (run initial sharedGame) "a").1 "R2").players = ["b", "a"] ∧
      mapGet (disconnect (run initial sharedGame) "a").1.rooms "R2"
        = some (roomAt (disconnect (run initial sharedGame) "a").1 "R2") ∧
      (disconnect (run initial sharedGame) "a").2 = [] ∧
      "R2" ∉ (disconnect (run initial sharedGame) "a").1.roomTimers := by
  decide

theorem local_detection_complete_witness :
    (roomAt (run initial openingGame) "R").gameOver = false ∧
      (¬ hasFour (roomAt (run initial openingGame) "R").board ∧
      ∀ (col : Int) (row : Nat),
        findRow (roomAt (run initial openingGame) "R").board col = some row →
        ((checkWin (setCell (roomAt (run initial openingGame) "R").board row col
              (some (roomAt (run initial openingGame) "R").currentPlayer)) row col
            (roomAt (run initial openingGame) "R").currentPlayer).isSome = true ↔
          hasFour (setCell (roomAt (run initial openingGame) "R").board row col
            (some (roomAt (run initial openingGame) "R").currentPlayer)))) :=
  ⟨by decide,
    local_detection_complete openingGame "R" (roomAt (run initial openingGame) "R")
      (by decide) (by decide)⟩

/-- C16, failing run: `a` holds X and `b` holds O in room `R`; after `b` has left, a `joinRoom`
by `a` on its own room overwrites the role recorded for `a` with O. -/
theorem joinRoom_overwrites_role :
    mapGet (roomAt (run initial leftAloneGame) "R").playerRoles "a" = some Role.X ∧
      mapGet (roomAt (run initial leftAloneGame) "R").playerRoles "b" = some Role.O ∧
      (roomAt (run initial leftAloneGame) "R").players = ["a"] ∧
      mapGet (roomAt (step (run initial leftAloneGame) (Event.joinRoom "a" "R")).1 "R").playerRoles
        "a" = some Role.O ∧
      (roomAt (step (run initial leftAloneGame) (Event.joinRoom "a" "R")).1 "R").players
        = ["a", "a"] := by
  decide

/-- C17, failing run: after two `createRoom` events of the same socket `a`, both registered
rooms list `a`; when `a` disconnects only `R1` is cleaned up and `R2` keeps listing `a`. -/
theorem socket_in_two_rooms :
    mapGet (run initial twoRoomsGame).rooms "R1"
        = some (roomAt (run initial twoRoomsGame) "R1") ∧
      mapGet (run initial twoRoomsGame).rooms "R2"
        = some (roomAt (run initial twoRoomsGame) "R2") ∧
      (roomAt (run initial twoRoomsGame) "R1").players = ["a"] ∧
      (roomAt (run initial twoRoomsGame) "R2").players = ["a"] ∧
      mapGet (disconnect (run initial twoRoomsGame) "a").1.rooms "R1" = none ∧
      (mapGet (disconnect (run initial twoRoomsGame) "a").1.rooms "R2").map
        (fun room => room.players) = some ["a"] := by
  decide

/-- C20, failing run: after the X player has left and a third socket has joined, room `R` has
two players that both hold O while the turn is X and the game is not over: a move by either
of them is answered with the `not your turn` error. -/
theorem two_players_same_role :
    (roomAt (run initial replacedGame) "R").players = ["b", "c"] ∧
      mapGet (roomAt (run initial replacedGame) "R").playerRoles "b" = some Role.O ∧
      mapGet (roomAt (run initial replacedGame) "R").playerRoles "c" = some Role.O ∧
      (roomAt (run initial replacedGame) "R").currentPlayer = Role.X ∧
      (roomAt (run initial replacedGame) "R").gameOver = false ∧
      makeMove (run initial replacedGame) "b" "R" 0 =
        (run initial replacedGame, [Emit.toSocket "b" (Payload.error errNotYourTurn)]) ∧
      makeMove (run initial replacedGame) "c" "R" 0 =
        (run initial replacedGame, [Emit.toSocket "c" (Payload.error errNotYourTurn)]) := by
  decide

end GravityGame
